import Mathlib

/-!
# wav2msu: a shallow embedding of `wav2msu.c`

The program checks a RIFF WAVE header (`validate`) and writes an MSU1 stream:
the tag `MSU1`, the loop point, the bytes of an optional intro file and the
bytes of the main input (`main`, lines 188-222).

Modelling decisions:

* a stream (`FILE*`) is its byte contents, a cursor and the fact whether it is
  `stdin` (the source compares the pointer with `stdin`); `fseek` on a stream
  other than `stdin` succeeds;
* the host is little-endian (the source says so at line 61) and `int` has 4
  bytes; `int`, `int16_t` and `int32_t` are `Int` values obtained from
  little-endian bytes by an explicit two's-complement wrap;
* `long` has `sizeof (long)` bytes, 4 or 8 depending on the target (`Target`);
  the addition in `long` (line 190) and the conversion to `int32_t` (line 208)
  wrap in two's complement;
* an `fread` that meets the end of the stream leaves (part of) an
  uninitialised variable untouched; the value the program then works with is
  indeterminate, and the embedding returns `none` for such a run;
* the messages written to `stderr` are the values of `Diag`, in order; the
  output stream is the list of the bytes written to it.
-/

namespace Wav2msu


/-- One byte of a stream. -/
abbrev Byte := Fin 256

/-- A C stream opened for reading: contents, cursor, and whether it is `stdin`. -/
structure FILE where
  data : List Byte
  pos : Nat
  isStdin : Bool
deriving DecidableEq, Repr

/-- The width of the C type `long` on the target the program is built for. -/
inductive Target where
  | long32
  | long64
deriving DecidableEq, Repr

/-- The value of `sizeof (long)`. -/
def Target.sizeofLong : Target → Nat
  | .long32 => 4
  | .long64 => 8

/-- The messages the program prints to `stderr`, with the values they show. -/
inductive Diag where
  /-- Line 63-64: "Incorrect header: Invalid format or endianness", "Value was: 0x%x". -/
  | incorrectHeader (riff_header : Int)
  /-- Line 81: "Not in PCM format! (format was: %d)". -/
  | notPCM (format : Int)
  /-- Line 102-103: "Not in 16bit 44.1kHz stereo!", "Got instead: %dbit, %dHz, %dch". -/
  | not16bit44kHzStereo (bits_per_sample sample_rate channels : Int)
  /-- Line 111: "Sample data not where expected!". -/
  | sampleDataNotWhereExpected
  /-- Line 195: "Intro file did not validate.". -/
  | introDidNotValidate
  /-- Line 204: "Input WAV data did not validate.". -/
  | inputDidNotValidate
deriving DecidableEq, Repr

/-- The three streams of a run, as named in `main`. -/
inductive Handle where
  | introfile
  | infile
  | outfile
deriving DecidableEq, Repr

/-- The value of a little-endian byte sequence, as an unsigned number. -/
def leNat : List Byte → Nat
  | [] => 0
  | b :: bs => b.val + 256 * leNat bs

/-- Two's-complement reading of `x` in `bits` bits. -/
def toSigned (bits : Nat) (x : Int) : Int :=
  if x % 2 ^ bits < 2 ^ (bits - 1) then x % 2 ^ bits else x % 2 ^ bits - 2 ^ bits

/-- The low byte of an integer in two's complement. -/
def lowByte (x : Int) : Byte :=
  ⟨(x % 256).toNat, by omega⟩

/-- The `n` bytes of the two's-complement representation of `x`, low byte first. -/
def leBytes : Nat → Int → List Byte
  | 0, _ => []
  | n + 1, x => lowByte x :: leBytes n (x / 256)

/-- Function `getc`: the next byte, or `none` for `EOF`. -/
def getc (ifp : FILE) : Option Byte × FILE :=
  match ifp.data[ifp.pos]? with
  | some c => (some c, { ifp with pos := ifp.pos + 1 })
  | none => (none, ifp)

/-- Function `fseek (ifp, offset, SEEK_SET)`. -/
def fseek (ifp : FILE) (offset : Nat) : FILE :=
  { ifp with pos := offset }

/-- Function `fread (&x, size, 1, ifp)`: the bytes stored into `x` (fewer than
`size` at the end of the stream) and the stream afterwards. -/
def fread (size : Nat) (ifp : FILE) : List Byte × FILE :=
  ((ifp.data.drop ifp.pos).take size,
    { ifp with pos := ifp.pos + ((ifp.data.drop ifp.pos).take size).length })

/-- An `fread` into a signed integer variable of `size` bytes, and the value the
variable then has; `none` when the variable was not filled. -/
def readInt (size : Nat) (ifp : FILE) : Option (Int × FILE) :=
  if ((fread size ifp).1).length = size then
    some (toSigned (8 * size) (leNat (fread size ifp).1), (fread size ifp).2)
  else none

/-- The loop `while (++i <= n) getc (ifp);` entered with counter value `i`
(lines 70-73 and 92-95, where `i = 0`). -/
def skipLoop (n : Nat) (i : Nat) (ifp : FILE) : FILE :=
  if i + 1 ≤ n then skipLoop n (i + 1) (getc ifp).2 else ifp
termination_by n - i

/-- Function `putc` on the output, which is the list of bytes written so far. -/
def putc (c : Byte) (outfile : List Byte) : List Byte :=
  outfile ++ [c]

/-- The loop `while ((c = getc (ifp)) != EOF) putc (c, outfile);` (lines 213-214
and 217-218). -/
def copyLoop (ifp : FILE) (outfile : List Byte) : FILE × List Byte :=
  match h : getc ifp with
  | (some c, ifp') => copyLoop ifp' (putc c outfile)
  | (none, ifp') => (ifp', outfile)
termination_by ifp.data.length - ifp.pos
decreasing_by
  unfold getc at h
  split at h
  · rename_i c' hc
    have hlt : ifp.pos < ifp.data.length := by
      rcases Nat.lt_or_ge ifp.pos ifp.data.length with h1 | h1
      · exact h1
      · rw [List.getElem?_eq_none h1] at hc
        cases hc
    simp only [Prod.mk.injEq, Option.some.injEq] at h
    rw [← h.2]
    simp only
    omega
  · simp at h

/-- Function `validate` (lines 58-118): the returned `int32_t`, the messages
printed, and the stream afterwards. -/
def validate (ifp : FILE) : Option (Int × List Diag × FILE) :=
  match readInt 4 ifp with
  | none => none
  | some (riff_header, ifp) =>
  if riff_header ≠ 0x46464952 then
    some (-1, [Diag.incorrectHeader riff_header], ifp)
  else
  match readInt 2 (if ifp.isStdin then skipLoop 16 0 ifp else fseek ifp 20) with
  | none => none
  | some (format, ifp) =>
  if format ≠ 1 then
    some (-1, [Diag.notPCM format], ifp)
  else
  match readInt 2 ifp with
  | none => none
  | some (channels, ifp) =>
  match readInt 4 ifp with
  | none => none
  | some (sample_rate, ifp) =>
  match readInt 2 (if ifp.isStdin then skipLoop 6 0 ifp else fseek ifp 34) with
  | none => none
  | some (bits_per_sample, ifp) =>
  if channels ≠ 2 ∨ sample_rate ≠ 44100 ∨ bits_per_sample ≠ 16 then
    some (-1, [Diag.not16bit44kHzStereo bits_per_sample sample_rate channels], ifp)
  else
  match readInt 4 ifp with
  | none => none
  | some (data_header, ifp) =>
  if data_header ≠ 0x61746164 then
    some (-1, [Diag.sampleDataNotWhereExpected], ifp)
  else
  match readInt 4 ifp with
  | none => none
  | some (data_size, ifp) => some (data_size, [], ifp)

/-- What a run of `main` leaves behind: the exit status, the bytes written to
`outfile`, the messages on `stderr`, the streams closed (in order), and the
input streams as they are at the end. -/
structure Run where
  status : Int
  out : List Byte
  err : List Diag
  closed : List Handle
  introfile : Option FILE
  infile : FILE
deriving DecidableEq, Repr

/-- The bytes of the string "MSU1" (line 209). -/
def msu1Tag : List Byte := [0x4D, 0x53, 0x55, 0x31]

/-- Lines 200-222 of `main`: validation of the main input and the writing of
the output. `err` holds the messages printed so far. -/
def mainFromLine200 (T : Target) (loop_point : Int) (introfile : Option FILE)
    (err : List Diag) (infile : FILE) : Option Run :=
  match validate infile with
  | none => none
  | some (data_size, err2, infile) =>
    if data_size = -1 then
      some { status := 1, out := [], err := err ++ err2 ++ [Diag.inputDidNotValidate],
             closed := [Handle.outfile, Handle.infile],
             introfile := introfile, infile := infile }
    else
      let loop_point := toSigned 32 loop_point
      let outfile := msu1Tag
      let outfile := outfile ++ leBytes T.sizeofLong loop_point
      match introfile with
      | some intro =>
        let r1 := copyLoop intro outfile
        let r2 := copyLoop infile r1.2
        some { status := 0, out := r2.2, err := err ++ err2,
               closed := [Handle.outfile, Handle.infile],
               introfile := some r1.1, infile := r2.1 }
      | none =>
        let r2 := copyLoop infile outfile
        some { status := 0, out := r2.2, err := err ++ err2,
               closed := [Handle.outfile, Handle.infile],
               introfile := none, infile := r2.1 }

/-- Lines 188-222 of `main`, after the command line has been read: `loop_point`
is the value of option `-l` (0 by default), `introfile` the stream of option
`-i` when given, `infile` the input. -/
def main (T : Target) (loop_point : Int) (introfile : Option FILE) (infile : FILE) :
    Option Run :=
  match introfile with
  | some intro =>
    match validate intro with
    | none => none
    | some (intro_size, err, intro) =>
      let loop_point := toSigned (8 * T.sizeofLong) (loop_point + Int.tdiv intro_size 4)
      if intro_size = -1 then
        some { status := 1, out := [], err := err ++ [Diag.introDidNotValidate],
               closed := [Handle.introfile, Handle.outfile, Handle.infile],
               introfile := some intro, infile := infile }
      else
        mainFromLine200 T loop_point (some intro) err infile
  | none => mainFromLine200 T loop_point none [] infile

/-- The unsigned little-endian number held by the `size` bytes at offset `off`. -/
def fieldAt (data : List Byte) (off size : Nat) : Nat :=
  leNat ((data.drop off).take size)

/-- The signed (two's-complement) little-endian number held by the `size`
bytes at offset `off`. -/
def signedAt (data : List Byte) (off size : Nat) : Int :=
  toSigned (8 * size) (fieldAt data off size)

/-- The bytes of the string "RIFF". -/
def riffTag : List Byte := [0x52, 0x49, 0x46, 0x46]

/-- The bytes of the string "data". -/
def dataTag : List Byte := [0x64, 0x61, 0x74, 0x61]

/-- The result of `validate`, as a function of the header fields. -/
def validateResult (ifp : FILE) : Int × List Diag × FILE :=
  if signedAt ifp.data 0 4 ≠ 0x46464952 then
    (-1, [Diag.incorrectHeader (signedAt ifp.data 0 4)], { ifp with pos := 4 })
  else if signedAt ifp.data 20 2 ≠ 1 then
    (-1, [Diag.notPCM (signedAt ifp.data 20 2)], { ifp with pos := 22 })
  else if signedAt ifp.data 22 2 ≠ 2 ∨ signedAt ifp.data 24 4 ≠ 44100 ∨
      signedAt ifp.data 34 2 ≠ 16 then
    (-1, [Diag.not16bit44kHzStereo (signedAt ifp.data 34 2) (signedAt ifp.data 24 4)
      (signedAt ifp.data 22 2)], { ifp with pos := 36 })
  else if signedAt ifp.data 36 4 ≠ 0x61746164 then
    (-1, [Diag.sampleDataNotWhereExpected], { ifp with pos := 40 })
  else
    (signedAt ifp.data 40 4, [], { ifp with pos := 44 })

/-- The header checks, in the words of the format: bytes 0-3 are "RIFF", the
format tag at offset 20 is 1, the channel count at offset 22 is 2, the sample
rate at offset 24 is 44100, the bit depth at offset 34 is 16 and bytes 36-39
are "data". -/
def ValidHeader (data : List Byte) : Prop :=
  data.take 4 = riffTag ∧ fieldAt data 20 2 = 1 ∧ fieldAt data 22 2 = 2 ∧
    fieldAt data 24 4 = 44100 ∧ fieldAt data 34 2 = 16 ∧ (data.drop 36).take 4 = dataTag

instance (data : List Byte) : Decidable (ValidHeader data) := by
  unfold ValidHeader
  infer_instance

/-- The first 40 bytes of a canonical 16-bit 44.1 kHz stereo PCM header: "RIFF",
a chunk size, "WAVE", "fmt ", 16, format 1, 2 channels, 44100 Hz, byte rate
176400, block align 4, 16 bits, "data". -/
def header40 : List Byte :=
  [0x52, 0x49, 0x46, 0x46, 0x2C, 0, 0, 0, 0x57, 0x41, 0x56, 0x45, 0x66, 0x6D, 0x74, 0x20,
   16, 0, 0, 0, 1, 0, 2, 0, 0x44, 0xAC, 0, 0, 0x10, 0xB1, 0x02, 0, 4, 0, 16, 0,
   0x64, 0x61, 0x74, 0x61]

/-- A stream made of the canonical header, the 4 bytes of the data-length field
and the bytes that follow. -/
def wavFile (size : List Byte) (samples : List Byte) (isStdin : Bool) : FILE :=
  ⟨header40 ++ size ++ samples, 0, isStdin⟩

/-- An input that `main` accepts: read from its start, at least 44 bytes, a valid
header, and a data-length field other than 0xFFFFFFFF (which `validate` returns
as -1, the value `main` takes for a failure). -/
def ValidInput (ifp : FILE) : Prop :=
  ifp.pos = 0 ∧ 44 ≤ ifp.data.length ∧ ValidHeader ifp.data ∧
    fieldAt ifp.data 40 4 ≠ 4294967295

instance (ifp : FILE) : Decidable (ValidInput ifp) := by
  unfold ValidInput
  infer_instance

/-- The failure kinds of the validator, as the specification names them. -/
inductive FailureKind where
  | BadSignature
  | NotPCM
  | FormatMismatch
  | DataMarkerMissing
deriving DecidableEq, Repr

/-- The failure kind a message of `validate` stands for; the two messages of
`main` name no check and stand for none. -/
def Diag.kind : Diag → Option FailureKind
  | .incorrectHeader _ => some FailureKind.BadSignature
  | .notPCM _ => some FailureKind.NotPCM
  | .not16bit44kHzStereo _ _ _ => some FailureKind.FormatMismatch
  | .sampleDataNotWhereExpected => some FailureKind.DataMarkerMissing
  | .introDidNotValidate => none
  | .inputDidNotValidate => none

/-- The first check that fails, in the order signature, format tag, channels /
sample rate / bit depth, data marker; `none` when every check passes. -/
def firstFailure (data : List Byte) : Option FailureKind :=
  if data.take 4 ≠ riffTag then some FailureKind.BadSignature
  else if fieldAt data 20 2 ≠ 1 then some FailureKind.NotPCM
  else if fieldAt data 22 2 ≠ 2 ∨ fieldAt data 24 4 ≠ 44100 ∨ fieldAt data 34 2 ≠ 16 then
    some FailureKind.FormatMismatch
  else if (data.drop 36).take 4 ≠ dataTag then some FailureKind.DataMarkerMissing
  else none

/-- A canonical main input: data length 8 and 8 sample bytes. -/
def input8 : FILE := wavFile [8, 0, 0, 0] [1, 2, 3, 4, 5, 6, 7, 8] false

/-- A valid header whose data-length field is 0xFFFFFFFF, and no sample bytes. -/
def inputAllOnes : FILE := wavFile [255, 255, 255, 255] [] false

/-- A valid header whose data-length field is 0x80000000, and no sample bytes. -/
def introHuge : FILE := wavFile [0, 0, 0, 128] [] false

/-- A canonical intro: data length 16 and 16 sample bytes. -/
def intro16 : FILE :=
  wavFile [16, 0, 0, 0]
    [101, 102, 103, 104, 105, 106, 107, 108, 109, 110, 111, 112, 113, 114, 115, 116] false

/-- A valid input whose data-length field is 4 and whose header is followed by 8
bytes: the 4 declared ones and 4 more. -/
def inputTrailing : FILE := wavFile [4, 0, 0, 0] [1, 2, 3, 4, 9, 9, 9, 9] false

/-- A valid intro whose data-length field is 0 and whose header is followed by 4
bytes. -/
def introUndeclared : FILE := wavFile [0, 0, 0, 0] [101, 102, 103, 104] false

/-- An input whose format tag is 3 instead of 1, otherwise canonical. -/
def inputNotPCM : FILE :=
  ⟨header40.set 20 3 ++ [8, 0, 0, 0] ++ [1, 2, 3, 4, 5, 6, 7, 8], 0, false⟩

/-- The canonical input with other bytes at offsets 4-19 (chunk size, "WAVE",
"fmt ", chunk size), 28-33 (byte rate, block align) and from 44 on. -/
def input8Scrambled : FILE :=
  ⟨[0x52, 0x49, 0x46, 0x46, 7, 7, 7, 7, 7, 7, 7, 7, 7, 7, 7, 7, 7, 7, 7, 7,
    1, 0, 2, 0, 0x44, 0xAC, 0, 0, 9, 9, 9, 9, 9, 9, 16, 0,
    0x64, 0x61, 0x74, 0x61, 8, 0, 0, 0, 200, 201], 0, true⟩

/-- The sample bytes a run copies: the bytes of the intro (when given) from
offset 44 to its end, then the bytes of the main input from offset 44 to its
end. -/
def payload (introfile : Option FILE) (infile : FILE) : List Byte :=
  (match introfile with
    | some intro => intro.data.drop 44
    | none => []) ++ infile.data.drop 44

/-- The loop point after lines 190 and 208: the base loop point plus the
quotient, truncated toward zero, of the `int32_t` returned for the intro by 4,
wrapped to a signed 32-bit integer. -/
def effectiveLoopPoint (loop_point : Int) (introfile : Option FILE) : Int :=
  match introfile with
  | some intro => toSigned 32 (loop_point + Int.tdiv (signedAt intro.data 40 4) 4)
  | none => toSigned 32 loop_point

/-- An input with two faults: format tag 3 instead of 1 and 1 channel instead
of 2; the format tag is the first check to fail. -/
def inputTwoFaults : FILE :=
  ⟨(header40.set 20 3).set 22 1 ++ [8, 0, 0, 0] ++ [1, 2, 3, 4, 5, 6, 7, 8], 0, true⟩

/-- Validation of a stream fails: `validate` returns -1, the value `main`
compares with at lines 191 and 201. -/
def ValidationFails (ifp : FILE) : Prop :=
  ∃ e ifp', validate ifp = some (-1, e, ifp')

/-- Validation of a stream passes: `validate` returns a value other than -1. -/
def ValidationPasses (ifp : FILE) : Prop :=
  ∃ r e ifp', validate ifp = some (r, e, ifp') ∧ r ≠ -1

/-- An intro was given and its validation fails. -/
def IntroFails (introfile : Option FILE) : Prop :=
  ∃ i, introfile = some i ∧ ValidationFails i

/-- No intro was given, or the validation of the intro given passes. -/
def IntroPasses (introfile : Option FILE) : Prop :=
  ∀ i, introfile = some i → ValidationPasses i

/-- A file of 4 bytes that does not start with "RIFF" (it holds "OggS"). -/
def inputTiny : FILE := ⟨[0x4F, 0x67, 0x67, 0x53], 0, false⟩

/-! ## Lemmas on the loops, the reads and the header fields -/

theorem getc_some {ifp ifp' : FILE} {c : Byte} (h : getc ifp = (some c, ifp')) :
    ifp.pos < ifp.data.length ∧ ifp' = { ifp with pos := ifp.pos + 1 } ∧
      ifp.data[ifp.pos]? = some c := by
  unfold getc at h
  split at h
  · rename_i c' hc
    have hlt : ifp.pos < ifp.data.length := by
      rcases Nat.lt_or_ge ifp.pos ifp.data.length with h1 | h1
      · exact h1
      · rw [List.getElem?_eq_none h1] at hc
        cases hc
    simp only [Prod.mk.injEq, Option.some.injEq] at h
    exact ⟨hlt, h.2.symm, by rw [hc, h.1]⟩
  · simp at h

theorem getc_of_lt (ifp : FILE) (h : ifp.pos < ifp.data.length) :
    (getc ifp).2 = { ifp with pos := ifp.pos + 1 } := by
  unfold getc
  rw [List.getElem?_eq_getElem h]

theorem getc_of_ge (ifp : FILE) (h : ifp.data.length ≤ ifp.pos) :
    getc ifp = (none, ifp) := by
  unfold getc
  rw [List.getElem?_eq_none h]

theorem skipLoop_eq (n : Nat) : ∀ (k i : Nat) (ifp : FILE), n - i = k →
    ifp.pos + (n - i) ≤ ifp.data.length →
    skipLoop n i ifp = { ifp with pos := ifp.pos + (n - i) } := by
  intro k
  induction k with
  | zero =>
    intro i ifp hk _
    rw [skipLoop, if_neg (by omega), hk]
    rfl
  | succ k ih =>
    intro i ifp hk hlen
    rw [skipLoop, if_pos (by omega), getc_of_lt ifp (by omega)]
    rw [ih (i + 1) _ (by omega) (by simp only; omega)]
    simp only [FILE.mk.injEq, true_and, and_true]
    omega

theorem readInt_eq (size : Nat) (ifp : FILE) (h : ifp.pos + size ≤ ifp.data.length) :
    readInt size ifp =
      some (signedAt ifp.data ifp.pos size, { ifp with pos := ifp.pos + size }) := by
  have hl : ((ifp.data.drop ifp.pos).take size).length = size := by
    rw [List.length_take, List.length_drop]
    omega
  simp only [readInt, fread, hl, if_true, signedAt, fieldAt]

theorem copyLoop_eq : ∀ (k : Nat) (ifp : FILE) (outfile : List Byte),
    ifp.data.length - ifp.pos = k →
    copyLoop ifp outfile =
      ({ ifp with pos := max ifp.pos ifp.data.length }, outfile ++ ifp.data.drop ifp.pos) := by
  intro k
  induction k with
  | zero =>
    intro ifp outfile hk
    have hge : ifp.data.length ≤ ifp.pos := by omega
    rw [copyLoop]
    split
    · rename_i c ifp' h
      rw [getc_of_ge ifp hge] at h
      simp at h
    · rename_i ifp' h
      rw [getc_of_ge ifp hge] at h
      simp only [Prod.mk.injEq, true_and] at h
      subst h
      rw [List.drop_eq_nil_of_le hge, List.append_nil, Nat.max_eq_left hge]
  | succ k ih =>
    intro ifp outfile hk
    rw [copyLoop]
    split
    · rename_i c ifp' h
      obtain ⟨h1, h2, h3⟩ := getc_some h
      subst h2
      rw [ih _ _ (by simp only; omega)]
      simp only [putc, List.append_assoc, List.singleton_append, Prod.mk.injEq, FILE.mk.injEq,
        true_and, and_true]
      refine ⟨by omega, ?_⟩
      rw [List.drop_eq_getElem_cons h1]
      rw [List.getElem?_eq_getElem h1] at h3
      simp only [Option.some.injEq] at h3
      rw [h3]
    · rename_i ifp' h
      have : ifp.pos < ifp.data.length := by omega
      unfold getc at h
      rw [List.getElem?_eq_getElem this] at h
      simp at h

/-- The copy loop writes the bytes from the cursor to the end of the stream and
leaves the cursor at the end. -/
theorem copyLoop_of_le (ifp : FILE) (outfile : List Byte) (h : ifp.pos ≤ ifp.data.length) :
    copyLoop ifp outfile =
      ({ ifp with pos := ifp.data.length }, outfile ++ ifp.data.drop ifp.pos) := by
  rw [copyLoop_eq _ ifp outfile rfl, Nat.max_eq_right h]

/-- On a stream of at least 44 bytes read from its start, every read of
`validate` is complete and the run of `validate` is `validateResult`. -/
theorem validate_eq (ifp : FILE) (hpos : ifp.pos = 0) (hlen : 44 ≤ ifp.data.length) :
    validate ifp = some (validateResult ifp) := by
  obtain ⟨data, pos, isStdin⟩ := ifp
  simp only at hpos hlen
  subst hpos
  unfold validate validateResult
  rw [readInt_eq 4 _ (by simp only; omega)]
  simp only
  split
  · rfl
  · have hskip : (if isStdin = true then skipLoop 16 0 ⟨data, 0 + 4, isStdin⟩
        else fseek ⟨data, 0 + 4, isStdin⟩ 20) = ⟨data, 20, isStdin⟩ := by
      cases isStdin
      · rfl
      · simp only [if_true]
        rw [skipLoop_eq 16 16 0 _ rfl (by simp only; omega)]
    rw [hskip, readInt_eq 2 _ (by simp only; omega)]
    simp only
    split
    · rfl
    · rw [readInt_eq 2 _ (by simp only; omega)]
      simp only
      rw [readInt_eq 4 _ (by simp only; omega)]
      simp only
      have hskip2 : (if isStdin = true then skipLoop 6 0 ⟨data, 20 + 2 + 2 + 4, isStdin⟩
          else fseek ⟨data, 20 + 2 + 2 + 4, isStdin⟩ 34) = ⟨data, 34, isStdin⟩ := by
        cases isStdin
        · rfl
        · simp only [if_true]
          rw [skipLoop_eq 6 6 0 _ rfl (by simp only; omega)]
      rw [hskip2, readInt_eq 2 _ (by simp only; omega)]
      simp only
      split
      · rfl
      · rw [readInt_eq 4 _ (by simp only; omega)]
        simp only
        split
        · rfl
        · rw [readInt_eq 4 _ (by simp only; omega)]

theorem toSigned_16 (x : Int) : toSigned 16 x =
    if x % 65536 < 32768 then x % 65536 else x % 65536 - 65536 := by
  unfold toSigned
  norm_num

theorem toSigned_32 (x : Int) : toSigned 32 x =
    if x % 4294967296 < 2147483648 then x % 4294967296 else x % 4294967296 - 4294967296 := by
  unfold toSigned
  norm_num

theorem toSigned_64 (x : Int) : toSigned 64 x =
    if x % 18446744073709551616 < 9223372036854775808 then x % 18446744073709551616
    else x % 18446744073709551616 - 18446744073709551616 := by
  unfold toSigned
  norm_num

theorem leNat_lt : ∀ l : List Byte, leNat l < 256 ^ l.length
  | [] => by simp [leNat]
  | b :: bs => by
    have ih := leNat_lt bs
    have hb := b.isLt
    simp only [leNat, List.length_cons, pow_succ]
    omega

theorem fieldAt_lt (data : List Byte) (off size : Nat) : fieldAt data off size < 256 ^ size := by
  unfold fieldAt
  have h := leNat_lt ((data.drop off).take size)
  have hl : ((data.drop off).take size).length ≤ size := by
    rw [List.length_take]
    omega
  exact lt_of_lt_of_le h (Nat.pow_le_pow_right (by decide) hl)

theorem fieldAt_lt_2 (data : List Byte) (off : Nat) : fieldAt data off 2 < 65536 :=
  fieldAt_lt data off 2

theorem fieldAt_lt_4 (data : List Byte) (off : Nat) : fieldAt data off 4 < 4294967296 :=
  fieldAt_lt data off 4

theorem signedAt_2 (data : List Byte) (off : Nat) : signedAt data off 2 =
    if fieldAt data off 2 < 32768 then (fieldAt data off 2 : Int)
    else (fieldAt data off 2 : Int) - 65536 := by
  have h := fieldAt_lt_2 data off
  unfold signedAt
  rw [show 8 * 2 = 16 from rfl, toSigned_16]
  split <;> split <;> omega

theorem signedAt_4 (data : List Byte) (off : Nat) : signedAt data off 4 =
    if fieldAt data off 4 < 2147483648 then (fieldAt data off 4 : Int)
    else (fieldAt data off 4 : Int) - 4294967296 := by
  have h := fieldAt_lt_4 data off
  unfold signedAt
  rw [show 8 * 4 = 32 from rfl, toSigned_32]
  split <;> split <;> omega

/-- A signed 16-bit field has the small non-negative value `v` exactly when the
unsigned field has. -/
theorem signedAt_2_eq_iff (data : List Byte) (off v : Nat) (hv : v < 32768) :
    signedAt data off 2 = (v : Int) ↔ fieldAt data off 2 = v := by
  have h := fieldAt_lt_2 data off
  rw [signedAt_2]
  split <;> omega

/-- A signed 32-bit field has the non-negative value `v` exactly when the
unsigned field has. -/
theorem signedAt_4_eq_iff (data : List Byte) (off v : Nat) (hv : v < 2147483648) :
    signedAt data off 4 = (v : Int) ↔ fieldAt data off 4 = v := by
  have h := fieldAt_lt_4 data off
  rw [signedAt_4]
  split <;> omega

theorem leNat_four_inj (l m : List Byte) (hl : l.length = 4) (hm : m.length = 4) :
    leNat l = leNat m ↔ l = m := by
  constructor
  · intro h
    rcases l with _ | ⟨a, _ | ⟨b, _ | ⟨c, _ | ⟨d, _ | ⟨e, t⟩⟩⟩⟩⟩ <;>
      simp only [List.length_cons, List.length_nil] at hl <;> try omega
    rcases m with _ | ⟨a', _ | ⟨b', _ | ⟨c', _ | ⟨d', _ | ⟨e', t'⟩⟩⟩⟩⟩ <;>
      simp only [List.length_cons, List.length_nil] at hm <;> try omega
    simp only [leNat] at h
    have ha := a.isLt
    have hb := b.isLt
    have hc := c.isLt
    have hd := d.isLt
    have ha' := a'.isLt
    have hb' := b'.isLt
    have hc' := c'.isLt
    have hd' := d'.isLt
    have h1 : a = a' := Fin.ext (by omega)
    have h2 : b = b' := Fin.ext (by omega)
    have h3 : c = c' := Fin.ext (by omega)
    have h4 : d = d' := Fin.ext (by omega)
    rw [h1, h2, h3, h4]
  · intro h
    rw [h]

/-- The 4 bytes at offset `off` are the 4-byte string `tag` exactly when the
`int` read there has the value of the tag. -/
theorem signedAt_4_eq_tag_iff (data : List Byte) (off : Nat) (tag : List Byte)
    (hlen : off + 4 ≤ data.length) (ht : tag.length = 4) (hsmall : leNat tag < 2147483648) :
    signedAt data off 4 = (leNat tag : Int) ↔ (data.drop off).take 4 = tag := by
  have hl : ((data.drop off).take 4).length = 4 := by
    rw [List.length_take, List.length_drop]
    omega
  rw [signedAt_4_eq_iff data off (leNat tag) hsmall, fieldAt]
  exact leNat_four_inj _ _ hl ht

theorem signedAt_riff_iff (data : List Byte) (hlen : 44 ≤ data.length) :
    signedAt data 0 4 = 0x46464952 ↔ data.take 4 = riffTag := by
  have h := signedAt_4_eq_tag_iff data 0 riffTag (by omega) rfl (by decide)
  rw [List.drop_zero] at h
  rw [← h]
  rfl

theorem signedAt_data_iff (data : List Byte) (hlen : 44 ≤ data.length) :
    signedAt data 36 4 = 0x61746164 ↔ (data.drop 36).take 4 = dataTag := by
  have h := signedAt_4_eq_tag_iff data 36 dataTag (by omega) rfl (by decide)
  rw [← h]
  rfl

theorem validateResult_of_valid (ifp : FILE) (hlen : 44 ≤ ifp.data.length)
    (hv : ValidHeader ifp.data) :
    validateResult ifp = (signedAt ifp.data 40 4, [], { ifp with pos := 44 }) := by
  obtain ⟨h1, h2, h3, h4, h5, h6⟩ := hv
  have e1 := (signedAt_riff_iff ifp.data hlen).2 h1
  have e2 := (signedAt_2_eq_iff ifp.data 20 1 (by decide)).2 h2
  have e3 := (signedAt_2_eq_iff ifp.data 22 2 (by decide)).2 h3
  have e4 := (signedAt_4_eq_iff ifp.data 24 44100 (by decide)).2 h4
  have e5 := (signedAt_2_eq_iff ifp.data 34 16 (by decide)).2 h5
  have e6 := (signedAt_data_iff ifp.data hlen).2 h6
  unfold validateResult
  rw [if_neg (by rw [e1]; decide), if_neg (by rw [e2]; decide),
    if_neg (by rw [e3, e4, e5]; decide), if_neg (by rw [e6]; decide)]

theorem signedAt_4_eq_neg_one_iff (data : List Byte) (off : Nat) :
    signedAt data off 4 = -1 ↔ fieldAt data off 4 = 4294967295 := by
  have h := fieldAt_lt_4 data off
  rw [signedAt_4]
  split <;> omega

theorem validate_of_valid (ifp : FILE) (hpos : ifp.pos = 0) (hlen : 44 ≤ ifp.data.length)
    (hv : ValidHeader ifp.data) :
    validate ifp = some (signedAt ifp.data 40 4, [], { ifp with pos := 44 }) := by
  rw [validate_eq ifp hpos hlen, validateResult_of_valid ifp hlen hv]

theorem mainFromLine200_valid_none (T : Target) (loop_point : Int) (err : List Diag)
    (infile : FILE) (h : ValidInput infile) :
    mainFromLine200 T loop_point none err infile =
      some { status := 0,
             out := msu1Tag ++ leBytes T.sizeofLong (toSigned 32 loop_point) ++
               infile.data.drop 44,
             err := err, closed := [Handle.outfile, Handle.infile], introfile := none,
             infile := { infile with pos := infile.data.length } } := by
  obtain ⟨hpos, hlen, hv, hsz⟩ := h
  have hne : signedAt infile.data 40 4 ≠ -1 := fun e =>
    hsz ((signedAt_4_eq_neg_one_iff _ _).1 e)
  unfold mainFromLine200
  rw [validate_of_valid infile hpos hlen hv]
  simp only [if_neg hne]
  rw [copyLoop_of_le _ _ (by simp only; omega)]
  simp only [List.append_nil]

theorem mainFromLine200_valid_some (T : Target) (loop_point : Int) (err : List Diag)
    (intro infile : FILE) (hi : intro.pos ≤ intro.data.length) (h : ValidInput infile) :
    mainFromLine200 T loop_point (some intro) err infile =
      some { status := 0,
             out := msu1Tag ++ leBytes T.sizeofLong (toSigned 32 loop_point) ++
               intro.data.drop intro.pos ++ infile.data.drop 44,
             err := err, closed := [Handle.outfile, Handle.infile],
             introfile := some { intro with pos := intro.data.length },
             infile := { infile with pos := infile.data.length } } := by
  obtain ⟨hpos, hlen, hv, hsz⟩ := h
  have hne : signedAt infile.data 40 4 ≠ -1 := fun e =>
    hsz ((signedAt_4_eq_neg_one_iff _ _).1 e)
  unfold mainFromLine200
  rw [validate_of_valid infile hpos hlen hv]
  simp only [if_neg hne]
  rw [copyLoop_of_le _ _ hi, copyLoop_of_le _ _ (by simp only; omega)]
  simp only [List.append_nil]

/-- A run without intro on a valid input. -/
theorem main_valid_none (T : Target) (loop_point : Int) (infile : FILE)
    (h : ValidInput infile) :
    main T loop_point none infile =
      some { status := 0,
             out := msu1Tag ++ leBytes T.sizeofLong (toSigned 32 loop_point) ++
               infile.data.drop 44,
             err := [], closed := [Handle.outfile, Handle.infile], introfile := none,
             infile := { infile with pos := infile.data.length } } := by
  unfold main
  exact mainFromLine200_valid_none T loop_point [] infile h

/-- A run with a valid intro on a valid input. -/
theorem main_valid_some (T : Target) (loop_point : Int) (intro infile : FILE)
    (hi : ValidInput intro) (h : ValidInput infile) :
    main T loop_point (some intro) infile =
      some { status := 0,
             out := msu1Tag ++ leBytes T.sizeofLong (toSigned 32 (toSigned (8 * T.sizeofLong)
                 (loop_point + Int.tdiv (signedAt intro.data 40 4) 4))) ++
               intro.data.drop 44 ++ infile.data.drop 44,
             err := [], closed := [Handle.outfile, Handle.infile],
             introfile := some { intro with pos := intro.data.length },
             infile := { infile with pos := infile.data.length } } := by
  obtain ⟨hpos, hlen, hv, hsz⟩ := hi
  have hne : signedAt intro.data 40 4 ≠ -1 := fun e =>
    hsz ((signedAt_4_eq_neg_one_iff _ _).1 e)
  unfold main
  simp only
  rw [validate_of_valid intro hpos hlen hv]
  simp only [if_neg hne]
  rw [mainFromLine200_valid_some T _ [] _ infile (by simp only; omega) h]

theorem firstFailure_eq (data : List Byte) (hlen : 44 ≤ data.length) :
    firstFailure data =
      if signedAt data 0 4 ≠ 0x46464952 then some FailureKind.BadSignature
      else if signedAt data 20 2 ≠ 1 then some FailureKind.NotPCM
      else if signedAt data 22 2 ≠ 2 ∨ signedAt data 24 4 ≠ 44100 ∨ signedAt data 34 2 ≠ 16 then
        some FailureKind.FormatMismatch
      else if signedAt data 36 4 ≠ 0x61746164 then some FailureKind.DataMarkerMissing
      else none := by
  unfold firstFailure
  have e1 := signedAt_riff_iff data hlen
  have e2 := signedAt_2_eq_iff data 20 1 (by decide)
  have e3 := signedAt_2_eq_iff data 22 2 (by decide)
  have e4 := signedAt_4_eq_iff data 24 44100 (by decide)
  have e5 := signedAt_2_eq_iff data 34 16 (by decide)
  have e6 := signedAt_data_iff data hlen
  simp only [Nat.cast_one, Nat.cast_ofNat] at e2 e3 e4 e5
  simp only [ne_eq, e1, e2, e3, e4, e5, e6]

theorem toSigned_32_of_range (x : Int) (h1 : -2147483648 ≤ x) (h2 : x < 2147483648) :
    toSigned 32 x = x := by
  rw [toSigned_32]
  split <;> omega

theorem toSigned_32_idem (x : Int) : toSigned 32 (toSigned 32 x) = toSigned 32 x := by
  rw [toSigned_32 x, toSigned_32]
  split <;> split <;> omega

/-- Truncation to `int32_t` after arithmetic in `long` is truncation of the exact
result. -/
theorem toSigned_32_long (T : Target) (x : Int) :
    toSigned 32 (toSigned (8 * T.sizeofLong) x) = toSigned 32 x := by
  cases T
  · rw [show 8 * Target.long32.sizeofLong = 32 from rfl, toSigned_32 x, toSigned_32]
    split <;> split <;> omega
  · rw [show 8 * Target.long64.sizeofLong = 64 from rfl, toSigned_64 x, toSigned_32,
      toSigned_32 x]
    split <;> split <;> split <;> omega

theorem leNat_leBytes_4 (v : Int) : (leNat (leBytes 4 v) : Int) = v % 4294967296 := by
  simp only [leBytes, leNat, lowByte]
  omega

/-- The 4 bytes after the tag decode to the 32-bit value of the loop point,
whatever the width of `long`. -/
theorem signedAt_loop_field (T : Target) (v : Int) (rest : List Byte) :
    signedAt (msu1Tag ++ leBytes T.sizeofLong v ++ rest) 4 4 = toSigned 32 v := by
  have h : ((msu1Tag ++ leBytes T.sizeofLong v ++ rest).drop 4).take 4 = leBytes 4 v := by
    cases T <;> simp [msu1Tag, Target.sizeofLong, leBytes]
  unfold signedAt fieldAt
  rw [h, show 8 * 4 = 32 from rfl, toSigned_32, toSigned_32, leNat_leBytes_4]
  split <;> split <;> omega

/-- The contribution of an intro whose data length is below 2^31. -/
theorem tdiv_signedAt_of_lt (data : List Byte) (h : fieldAt data 40 4 < 2147483648) :
    Int.tdiv (signedAt data 40 4) 4 = ((fieldAt data 40 4 / 4 : Nat) : Int) := by
  rw [signedAt_4, if_pos h]
  exact (Int.ofNat_tdiv _ 4).symm

theorem length_leBytes (n : Nat) : ∀ v : Int, (leBytes n v).length = n := by
  induction n with
  | zero => intro v; rfl
  | succ n ih => intro v; simp only [leBytes, List.length_cons, ih]

theorem length_msu1Tag : msu1Tag.length = 4 := rfl

/-- After the tag and a 4-byte loop point, the output is the rest. -/
theorem drop_8_header (v : Int) (rest : List Byte) :
    (msu1Tag ++ leBytes 4 v ++ rest).drop 8 = rest := by
  have h : (msu1Tag ++ leBytes 4 v).length = 8 := by
    rw [List.length_append, length_msu1Tag, length_leBytes]
  rw [← h, List.drop_left]

theorem take_4_header (bs rest : List Byte) : (msu1Tag ++ bs ++ rest).take 4 = msu1Tag := by
  rw [List.append_assoc, ← length_msu1Tag, List.take_left]

theorem take_4_drop_4_header (v : Int) (rest : List Byte) :
    ((msu1Tag ++ leBytes 4 v ++ rest).drop 4).take 4 = leBytes 4 v := by
  rw [List.append_assoc, ← length_msu1Tag, List.drop_left, length_msu1Tag]
  have h : (leBytes 4 v).length = 4 := length_leBytes 4 v
  exact h ▸ List.take_left (leBytes 4 v) rest

/-- Where `long` has 4 bytes, a run without intro on a valid input and a loop
point that is a signed 32-bit integer writes the tag, the 4 bytes of the loop
point and the bytes of the input from offset 44 on. -/
theorem main_long32_no_intro (L : Int) (infile : FILE) (h : ValidInput infile)
    (h1 : -2147483648 ≤ L) (h2 : L < 2147483648) :
    ∃ run, main Target.long32 L none infile = some run ∧
      run.out.take 4 = msu1Tag ∧ (run.out.drop 4).take 4 = leBytes 4 L ∧
      signedAt run.out 4 4 = L ∧ run.out.drop 8 = infile.data.drop 44 ∧
      run.out.length = 8 + (infile.data.drop 44).length := by
  refine ⟨_, main_valid_none Target.long32 L infile h, ?_, ?_, ?_, ?_, ?_⟩
  · exact take_4_header _ _
  · simp only [Target.sizeofLong]
    rw [take_4_drop_4_header, toSigned_32_of_range L h1 h2]
  · simp only
    rw [signedAt_loop_field, toSigned_32_idem, toSigned_32_of_range L h1 h2]
  · exact drop_8_header _ _
  · simp only [List.length_append, length_msu1Tag, length_leBytes, Target.sizeofLong]

/-- Where `long` has 4 bytes, the output of a run with an intro is the tag, 4
bytes of loop point, and from offset 8 on the bytes of the intro from offset 44
followed by the bytes of the main input from offset 44. -/
theorem main_long32_intro (L : Int) (intro infile : FILE) (hi : ValidInput intro)
    (h : ValidInput infile) :
    ∃ run, main Target.long32 L (some intro) infile = some run ∧
      run.out.take 4 = msu1Tag ∧
      run.out.drop 8 = intro.data.drop 44 ++ infile.data.drop 44 := by
  refine ⟨_, main_valid_some Target.long32 L intro infile hi h, ?_, ?_⟩
  · simp only [List.append_assoc]
    rw [← List.append_assoc]
    exact take_4_header _ _
  · simp only [List.append_assoc, Target.sizeofLong]
    rw [← List.append_assoc]
    exact drop_8_header _ _

/-! ## C1: the value returned for a valid header -/

/-- C1 (counterexample): on a valid header whose data-length field is
0xFFFFFFFF, `validate` returns -1, which is not the value of the field, and
`main` takes the input for one that did not validate (exit status 1). -/
theorem validate_allOnes_is_failure :
    inputAllOnes.pos = 0 ∧ 44 ≤ inputAllOnes.data.length ∧ ValidHeader inputAllOnes.data ∧
      fieldAt inputAllOnes.data 40 4 = 4294967295 ∧
      validate inputAllOnes = some (-1, [], { inputAllOnes with pos := 44 }) ∧
      (-1 : Int) ≠ (fieldAt inputAllOnes.data 40 4 : Int) ∧
      (main Target.long32 0 none inputAllOnes).map Run.status = some 1 := by
  have hv : validate inputAllOnes = some (-1, [], { inputAllOnes with pos := 44 }) := by
    rw [validate_eq _ rfl (by decide)]
    decide
  refine ⟨rfl, by decide, by decide, by decide, hv, by decide, ?_⟩
  unfold main mainFromLine200
  rw [hv]
  rfl

/-- C1 (amended): on a stream of at least 44 bytes, read from its start, with a
valid header and a data-length field other than 0xFFFFFFFF, `validate` prints
nothing, leaves the cursor at 44 and returns a value other than -1, namely the
data-length field read as a two's-complement 32-bit integer: the field itself
below 2^31, the field minus 2^32 from 2^31 on; `main` then ends with status 0. -/
theorem validate_returns_data_size (ifp : FILE) (hpos : ifp.pos = 0)
    (hlen : 44 ≤ ifp.data.length) (hv : ValidHeader ifp.data)
    (hsz : fieldAt ifp.data 40 4 ≠ 4294967295) :
    ∃ r : Int, validate ifp = some (r, [], { ifp with pos := 44 }) ∧ r ≠ -1 ∧
      r = toSigned 32 (fieldAt ifp.data 40 4) ∧
      (fieldAt ifp.data 40 4 < 2147483648 → r = (fieldAt ifp.data 40 4 : Int)) ∧
      (2147483648 ≤ fieldAt ifp.data 40 4 → r = (fieldAt ifp.data 40 4 : Int) - 4294967296) ∧
      ∀ (T : Target) (L : Int), (main T L none ifp).map Run.status = some 0 := by
  refine ⟨signedAt ifp.data 40 4, validate_of_valid ifp hpos hlen hv, ?_, rfl, ?_, ?_, ?_⟩
  · exact fun e => hsz ((signedAt_4_eq_neg_one_iff _ _).1 e)
  · intro h
    rw [signedAt_4, if_pos h]
  · intro h
    rw [signedAt_4, if_neg (by omega)]
  · intro T L
    rw [main_valid_none T L ifp ⟨hpos, hlen, hv, hsz⟩]
    rfl

/-- C1 (witness): the amended claim at a canonical input with data length 8. -/
theorem validate_returns_data_size_witness :
    ValidInput input8 ∧
    ∃ r : Int, validate input8 = some (r, [], { input8 with pos := 44 }) ∧ r ≠ -1 ∧
      r = toSigned 32 (fieldAt input8.data 40 4) ∧
      (fieldAt input8.data 40 4 < 2147483648 → r = (fieldAt input8.data 40 4 : Int)) ∧
      (2147483648 ≤ fieldAt input8.data 40 4 →
        r = (fieldAt input8.data 40 4 : Int) - 4294967296) ∧
      ∀ (T : Target) (L : Int), (main T L none input8).map Run.status = some 0 :=
  ⟨by decide, validate_returns_data_size input8 rfl (by decide) (by decide) (by decide)⟩

/-! ## C2: the failure reported -/

/-- C2: on a stream of at least 44 bytes read from its start, `validate` prints
exactly the message of the first check that fails (signature, then format tag,
then channels / sample rate / bit depth, then data marker) and returns -1, and
prints nothing when every check passes: a failure kind is reported if and only
if its check is the first to fail, and no message without a kind is printed. -/
theorem validate_reports_first_failure (ifp : FILE) (hpos : ifp.pos = 0)
    (hlen : 44 ≤ ifp.data.length) :
    ∃ (r : Int) (e : List Diag) (ifp' : FILE), validate ifp = some (r, e, ifp') ∧
      e.map Diag.kind = (firstFailure ifp.data).toList.map some ∧
      (∀ k : FailureKind, some k ∈ e.map Diag.kind ↔ firstFailure ifp.data = some k) ∧
      none ∉ e.map Diag.kind ∧
      (firstFailure ifp.data ≠ none → r = -1) := by
  have hmain : (validateResult ifp).2.1.map Diag.kind = (firstFailure ifp.data).toList.map some ∧
      (firstFailure ifp.data ≠ none → (validateResult ifp).1 = -1) := by
    rw [firstFailure_eq ifp.data hlen]
    unfold validateResult
    split
    · exact ⟨rfl, fun _ => rfl⟩
    · split
      · exact ⟨rfl, fun _ => rfl⟩
      · split
        · exact ⟨rfl, fun _ => rfl⟩
        · split
          · exact ⟨rfl, fun _ => rfl⟩
          · exact ⟨rfl, fun h => absurd rfl h⟩
  have hval := validate_eq ifp hpos hlen
  generalize validateResult ifp = res at hmain hval
  obtain ⟨r, e, ifp'⟩ := res
  refine ⟨r, e, ifp', hval, hmain.1, ?_, ?_, hmain.2⟩
  · intro k
    rw [hmain.1]
    cases firstFailure ifp.data <;> simp [eq_comm]
  · rw [hmain.1]
    cases firstFailure ifp.data <;> simp

/-- C2 (witness): a stream on `stdin` whose format tag is 3 and whose channel
count is 1. The signature is right, so the first check to fail is the format
tag: `validate` prints the one message of kind `NotPCM`, with the tag it read,
and returns -1; the channel count is not reported. -/
theorem validate_reports_first_failure_witness :
    inputTwoFaults.pos = 0 ∧ 44 ≤ inputTwoFaults.data.length ∧
    fieldAt inputTwoFaults.data 20 2 = 3 ∧ fieldAt inputTwoFaults.data 22 2 = 1 ∧
    firstFailure inputTwoFaults.data = some FailureKind.NotPCM ∧
    validate inputTwoFaults =
      some (-1, [Diag.notPCM 3], { inputTwoFaults with pos := 22 }) ∧
    ∃ (r : Int) (e : List Diag) (ifp' : FILE), validate inputTwoFaults = some (r, e, ifp') ∧
      e.map Diag.kind = (firstFailure inputTwoFaults.data).toList.map some ∧
      (∀ k : FailureKind, some k ∈ e.map Diag.kind ↔
        firstFailure inputTwoFaults.data = some k) ∧
      none ∉ e.map Diag.kind ∧
      (firstFailure inputTwoFaults.data ≠ none → r = -1) :=
  ⟨rfl, by decide, by decide, by decide, by decide,
    by rw [validate_eq _ rfl (by decide)]; decide,
    validate_reports_first_failure inputTwoFaults rfl (by decide)⟩

/-! ## C3: the header of a run without intro -/

/-- C3 (the code at the failing input): built for a target whose `long` has 8
bytes, a run without intro on a valid input with 8 sample bytes and loop point 0
writes "MSU1", eight bytes of loop point and the 8 sample bytes: 20 bytes
instead of 16, and the first sample byte is at offset 12 instead of 8. -/
theorem main_long64_header_12_bytes :
    ValidInput input8 ∧
    (main Target.long64 0 none input8).map Run.out =
      some (msu1Tag ++ [0, 0, 0, 0, 0, 0, 0, 0] ++ [1, 2, 3, 4, 5, 6, 7, 8]) ∧
    (main Target.long64 0 none input8).map (fun r => r.out.length) = some 20 ∧
    (main Target.long64 0 none input8).map (fun r => r.out.drop 8) ≠
      some (input8.data.drop 44) := by
  rw [main_valid_none Target.long64 0 input8 (by decide)]
  decide

/-! ## C4: the loop point written -/

/-- C4 (counterexample): for a valid intro whose data-length field is 2^31 and
loop point 0, the loop point written is -2^29 on both targets, while
0 + floor (2^31 / 4) wrapped to 32 bits is 2^29. -/
theorem loop_point_intro_huge :
    ValidInput introHuge ∧ ValidInput input8 ∧ fieldAt introHuge.data 40 4 = 2147483648 ∧
    (main Target.long32 0 (some introHuge) input8).map (fun r => signedAt r.out 4 4) =
      some (-536870912) ∧
    (main Target.long64 0 (some introHuge) input8).map (fun r => signedAt r.out 4 4) =
      some (-536870912) ∧
    toSigned 32 (0 + ((fieldAt introHuge.data 40 4 / 4 : Nat) : Int)) = 536870912 := by
  rw [main_valid_some Target.long32 0 introHuge input8 (by decide) (by decide),
    main_valid_some Target.long64 0 introHuge input8 (by decide) (by decide)]
  simp only [Option.map_some', signedAt_loop_field]
  decide

/-- C4 (amended): for every base loop point `L`, every valid main input and
every valid intro whose data-length field `S` is below 2^31, the loop point
written (the 4 bytes after the tag, read as a little-endian signed 32-bit
integer) is `L + floor (S / 4)` wrapped modulo 2^32 to a signed 32-bit integer;
without intro it is `L` wrapped in the same way, which is `L` itself when `L` is
a signed 32-bit integer. -/
theorem loop_point_written (T : Target) (L : Int) (intro infile : FILE)
    (hi : ValidInput intro) (h : ValidInput infile)
    (hS : fieldAt intro.data 40 4 < 2147483648) :
    (∃ run, main T L (some intro) infile = some run ∧
      signedAt run.out 4 4 = toSigned 32 (L + ((fieldAt intro.data 40 4 / 4 : Nat) : Int))) ∧
    (∃ run, main T L none infile = some run ∧ signedAt run.out 4 4 = toSigned 32 L ∧
      (-2147483648 ≤ L → L < 2147483648 → signedAt run.out 4 4 = L)) := by
  constructor
  · refine ⟨_, main_valid_some T L intro infile hi h, ?_⟩
    simp only [List.append_assoc]
    rw [← List.append_assoc, signedAt_loop_field, toSigned_32_long, toSigned_32_idem,
      tdiv_signedAt_of_lt _ hS]
  · refine ⟨_, main_valid_none T L infile h, ?_, ?_⟩
    · simp only
      rw [signedAt_loop_field, toSigned_32_idem]
    · intro h1 h2
      simp only
      rw [signedAt_loop_field, toSigned_32_idem, toSigned_32_of_range L h1 h2]

/-- C4 (witness): intro with data length 16, main input with data length 8 and
base loop point 1. -/
theorem loop_point_written_witness :
    (∃ run, main Target.long32 1 (some intro16) input8 = some run ∧
      signedAt run.out 4 4 = toSigned 32 (1 + ((fieldAt intro16.data 40 4 / 4 : Nat) : Int))) ∧
    (∃ run, main Target.long32 1 none input8 = some run ∧
      signedAt run.out 4 4 = toSigned 32 1 ∧
      (-2147483648 ≤ (1 : Int) → (1 : Int) < 2147483648 → signedAt run.out 4 4 = 1)) :=
  loop_point_written Target.long32 1 intro16 input8 (by decide) (by decide) (by decide)

/-! ## C5: the number of bytes written -/

/-- C5 (counterexample): with `long` of 4 bytes, a valid intro declaring 16 bytes
and a valid main input declaring 4 bytes but followed by 8, the run writes
8 + 16 + 8 = 32 bytes, not 8 + 16 + 4 = 28. -/
theorem output_length_trailing :
    ValidInput intro16 ∧ ValidInput inputTrailing ∧
    fieldAt intro16.data 40 4 = 16 ∧ fieldAt inputTrailing.data 40 4 = 4 ∧
    (main Target.long32 0 (some intro16) inputTrailing).map (fun r => r.out.length) =
      some 32 ∧
    (main Target.long32 0 (some intro16) inputTrailing).map (fun r => r.out.length) ≠
      some (8 + fieldAt intro16.data 40 4 + fieldAt inputTrailing.data 40 4) := by
  rw [main_valid_some Target.long32 0 intro16 inputTrailing (by decide) (by decide)]
  decide

/-- C5 (amended): with `long` of 4 bytes, for every valid intro and every valid
main input the run writes exactly 8 bytes plus the bytes of the intro from
offset 44 to its end plus the bytes of the main input from offset 44 to its
end; this is 8 + S + M when each header is followed by as many bytes as its
data-length field (S, M) declares. -/
theorem output_length_long32 (L : Int) (intro infile : FILE)
    (hi : ValidInput intro) (h : ValidInput infile) :
    ∃ run, main Target.long32 L (some intro) infile = some run ∧
      run.out.length = 8 + (intro.data.length - 44) + (infile.data.length - 44) ∧
      (intro.data.length = 44 + fieldAt intro.data 40 4 →
        infile.data.length = 44 + fieldAt infile.data 40 4 →
        run.out.length = 8 + fieldAt intro.data 40 4 + fieldAt infile.data 40 4) := by
  refine ⟨_, main_valid_some Target.long32 L intro infile hi h, ?_, ?_⟩
  · simp only [List.length_append, length_msu1Tag, length_leBytes, List.length_drop,
      Target.sizeofLong]
  · intro h1 h2
    simp only [List.length_append, length_msu1Tag, length_leBytes, List.length_drop,
      Target.sizeofLong]
    omega

/-- C5 (witness): intro with 16 declared and present bytes, main input with 8. -/
theorem output_length_long32_witness :
    ValidInput intro16 ∧ ValidInput input8 ∧
    ∃ run, main Target.long32 1 (some intro16) input8 = some run ∧
      run.out.length = 8 + (intro16.data.length - 44) + (input8.data.length - 44) ∧
      (intro16.data.length = 44 + fieldAt intro16.data 40 4 →
        input8.data.length = 44 + fieldAt input8.data 40 4 →
        run.out.length = 8 + fieldAt intro16.data 40 4 + fieldAt input8.data 40 4) :=
  ⟨by decide, by decide, output_length_long32 1 intro16 input8 (by decide) (by decide)⟩

/-! ## C6: the payload -/

/-- C6 (the code at the failing input): built for a target whose `long` has 8
bytes, the run on an intro with 16 sample bytes, a main input with 8 sample
bytes and base loop point 1 writes "MSU1", the eight bytes 05 00 00 00 00 00 00
00, the intro bytes and the main bytes: the output from offset 8 on starts with
four bytes 00 that are in neither input. -/
theorem main_long64_payload_shifted :
    ValidInput intro16 ∧ ValidInput input8 ∧
    (main Target.long64 1 (some intro16) input8).map Run.out =
      some (msu1Tag ++ [5, 0, 0, 0, 0, 0, 0, 0] ++ intro16.data.drop 44 ++
        input8.data.drop 44) ∧
    (main Target.long64 1 (some intro16) input8).map (fun r => r.out.drop 8) =
      some ([0, 0, 0, 0] ++ intro16.data.drop 44 ++ input8.data.drop 44) ∧
    (main Target.long64 1 (some intro16) input8).map (fun r => r.out.drop 8) ≠
      some (intro16.data.drop 44 ++ input8.data.drop 44) := by
  rw [main_valid_some Target.long64 1 intro16 input8 (by decide) (by decide)]
  decide

/-! ## C7: the loop point as a frame position of the output -/

/-- C7 (counterexample): with `long` of 4 bytes, a valid intro that declares 0
bytes but is followed by 4, and base loop point 0 (a frame of the main input),
the loop point written is 0, not 0 + 4 / 4, and the frame at payload offset 0 is
the intro's, not frame 0 of the main input. -/
theorem loop_point_undeclared_intro :
    ValidInput introUndeclared ∧ ValidInput input8 ∧
    4 * 0 + 4 ≤ (input8.data.drop 44).length ∧
    (introUndeclared.data.drop 44).length = 4 ∧
    (main Target.long32 0 (some introUndeclared) input8).map (fun r => signedAt r.out 4 4) =
      some 0 ∧
    (main Target.long32 0 (some introUndeclared) input8).map (fun r => signedAt r.out 4 4) ≠
      some ((0 : Int) + (((introUndeclared.data.drop 44).length / 4 : Nat) : Int)) ∧
    (main Target.long32 0 (some introUndeclared) input8).map
      (fun r => ((r.out.drop 8).drop (4 * 0)).take 4) = some [101, 102, 103, 104] ∧
    ((input8.data.drop 44).drop (4 * 0)).take 4 = [1, 2, 3, 4] := by
  rw [main_valid_some Target.long32 0 introUndeclared input8 (by decide) (by decide)]
  decide

/-- C7 (amended): with `long` of 4 bytes, for every valid main input, every
valid intro whose data-length field `S` is below 2^31, a multiple of 4 and equal
to the number of intro bytes after the header, and every base loop point `L`
that is a frame index of the main sample data with `L + S / 4 < 2^31`, the loop
point written is `L + (intro bytes emitted) / 4`, and the 4-byte frame at byte
offset `4 * L` of the main sample data is the frame at byte offset
`4 * (written loop point)` of the output payload (the output after its first 8
bytes). -/
theorem loop_point_frame_long32 (L : Nat) (intro infile : FILE)
    (hi : ValidInput intro) (h : ValidInput infile)
    (hS : fieldAt intro.data 40 4 < 2147483648)
    (hmul : fieldAt intro.data 40 4 % 4 = 0)
    (hdecl : intro.data.length = 44 + fieldAt intro.data 40 4)
    (hframe : 4 * L + 4 ≤ (infile.data.drop 44).length)
    (hrange : L + fieldAt intro.data 40 4 / 4 < 2147483648) :
    ∃ (run : Run) (W : Nat), main Target.long32 L (some intro) infile = some run ∧
      signedAt run.out 4 4 = (W : Int) ∧
      W = L + (intro.data.drop 44).length / 4 ∧
      ((run.out.drop 8).drop (4 * W)).take 4 = ((infile.data.drop 44).drop (4 * L)).take 4 ∧
      (((infile.data.drop 44).drop (4 * L)).take 4).length = 4 := by
  have hlen : (intro.data.drop 44).length = fieldAt intro.data 40 4 := by
    rw [List.length_drop]
    omega
  refine ⟨_, L + (intro.data.drop 44).length / 4,
    main_valid_some Target.long32 L intro infile hi h, ?_, rfl, ?_, ?_⟩
  · simp only [List.append_assoc]
    rw [← List.append_assoc, signedAt_loop_field, toSigned_32_long, toSigned_32_idem,
      tdiv_signedAt_of_lt _ hS, hlen, toSigned_32_of_range _ (by omega) (by omega)]
    push_cast
    rfl
  · simp only [List.append_assoc, Target.sizeofLong]
    rw [← List.append_assoc, drop_8_header]
    have h4 : 4 * (L + (intro.data.drop 44).length / 4) =
        (intro.data.drop 44).length + 4 * L := by
      rw [hlen]
      omega
    rw [h4, List.drop_append]
  · rw [List.length_take]
    simp only [List.length_drop] at hframe ⊢
    omega

/-- C7 (witness): intro with 16 sample bytes, main input with 8 sample bytes and
base loop point 1. -/
theorem loop_point_frame_long32_witness :
    ∃ (run : Run) (W : Nat), main Target.long32 (1 : Nat) (some intro16) input8 = some run ∧
      signedAt run.out 4 4 = (W : Int) ∧
      W = 1 + (intro16.data.drop 44).length / 4 ∧
      ((run.out.drop 8).drop (4 * W)).take 4 = ((input8.data.drop 44).drop (4 * 1)).take 4 ∧
      (((input8.data.drop 44).drop (4 * 1)).take 4).length = 4 :=
  loop_point_frame_long32 1 intro16 input8 (by decide) (by decide) (by decide) (by decide)
    (by decide) (by decide) (by decide)

/-! ## C8: no output when a validation fails -/

/-- C8: when `validate` returns -1 for the intro, or the intro is absent or
passes and `validate` returns -1 for the main input, the run writes no byte and
ends with status 1; when it is the intro that fails, the main input has not
been read at all and the only messages are the intro's. -/
theorem no_output_on_failure (T : Target) (L : Int) (introfile : Option FILE) (infile : FILE)
    (hfail : (∃ i e i', introfile = some i ∧ validate i = some (-1, e, i')) ∨
      ((introfile = none ∨
          ∃ i r e i', introfile = some i ∧ validate i = some (r, e, i') ∧ r ≠ -1) ∧
        ∃ e ifp', validate infile = some (-1, e, ifp'))) :
    ∃ run, main T L introfile infile = some run ∧ run.out = [] ∧ run.status = 1 ∧
      ∀ i e i', introfile = some i → validate i = some (-1, e, i') →
        run.infile = infile ∧ run.introfile = some i' ∧
          run.err = e ++ [Diag.introDidNotValidate] := by
  rcases hfail with ⟨i, e, i', hi, hv⟩ | ⟨hintro, e2, f2, hv2⟩
  · subst hi
    refine ⟨_, by unfold main; simp only [hv, if_true]; rfl, rfl, rfl, ?_⟩
    intro j e' j' hj hv'
    cases hj
    rw [hv] at hv'
    simp only [Option.some.injEq, Prod.mk.injEq, true_and] at hv'
    simp only [hv'.1, hv'.2, and_self]
  · rcases hintro with hnone | ⟨i, r, e, i', hi, hv, hr⟩
    · subst hnone
      refine ⟨_, by unfold main mainFromLine200; simp only [hv2, if_true]; rfl, rfl, rfl, ?_⟩
      intro j e' j' hj
      cases hj
    · subst hi
      refine ⟨_, by unfold main mainFromLine200; simp only [hv, hv2, if_neg hr, if_true]; rfl,
        rfl, rfl, ?_⟩
      intro j e' j' hj hv'
      cases hj
      rw [hv] at hv'
      simp only [Option.some.injEq, Prod.mk.injEq] at hv'
      exact absurd hv'.1 hr

/-- C8 (witness): an intro whose format tag is 3, before a valid main input. -/
theorem no_output_on_failure_witness :
    validate inputNotPCM = some (-1, [Diag.notPCM 3], { inputNotPCM with pos := 22 }) ∧
    ∃ run, main Target.long32 0 (some inputNotPCM) input8 = some run ∧ run.out = [] ∧
      run.status = 1 ∧
      ∀ i e i', some inputNotPCM = some i → validate i = some (-1, e, i') →
        run.infile = input8 ∧ run.introfile = some i' ∧
          run.err = e ++ [Diag.introDidNotValidate] :=
  have hv : validate inputNotPCM =
      some (-1, [Diag.notPCM 3], { inputNotPCM with pos := 22 }) := by
    rw [validate_eq _ rfl (by decide)]
    decide
  ⟨hv, no_output_on_failure Target.long32 0 (some inputNotPCM) input8
    (Or.inl ⟨_, _, _, rfl, hv⟩)⟩

/-! ## C9: the cursor after a successful validation -/

/-- C9: on a stream of at least 44 bytes read from its start, whether it is
`stdin` (bytes discarded by `getc`) or not (`fseek`), when `validate` succeeds
(it prints no message, or it returns a value other than -1) the stream
afterwards is the same stream with its cursor at offset 44, and nothing has
been printed. -/
theorem validate_cursor_44 (ifp : FILE) (hpos : ifp.pos = 0) (hlen : 44 ≤ ifp.data.length) :
    ∃ (r : Int) (e : List Diag) (ifp' : FILE), validate ifp = some (r, e, ifp') ∧
      (e = [] ∨ r ≠ -1 →
        ifp'.pos = 44 ∧ ifp'.data = ifp.data ∧ ifp'.isStdin = ifp.isStdin ∧ e = []) := by
  have hres : (validateResult ifp).2.1 = [] ∨ (validateResult ifp).1 ≠ -1 →
      (validateResult ifp).2.2.pos = 44 ∧ (validateResult ifp).2.2.data = ifp.data ∧
        (validateResult ifp).2.2.isStdin = ifp.isStdin ∧ (validateResult ifp).2.1 = [] := by
    unfold validateResult
    split
    · rintro (h | h) <;> simp at h
    · split
      · rintro (h | h) <;> simp at h
      · split
        · rintro (h | h) <;> simp at h
        · split
          · rintro (h | h) <;> simp at h
          · intro _
            exact ⟨rfl, rfl, rfl, rfl⟩
  have hval := validate_eq ifp hpos hlen
  generalize validateResult ifp = res at hres hval
  obtain ⟨r, e, ifp'⟩ := res
  exact ⟨r, e, ifp', hval, hres⟩

/-- C9 (witness): the canonical input, read as a file. -/
theorem validate_cursor_44_witness :
    input8.pos = 0 ∧ 44 ≤ input8.data.length ∧
    ∃ (r : Int) (e : List Diag) (ifp' : FILE), validate input8 = some (r, e, ifp') ∧
      (e = [] ∨ r ≠ -1 →
        ifp'.pos = 44 ∧ ifp'.data = input8.data ∧ ifp'.isStdin = input8.isStdin ∧ e = []) :=
  ⟨rfl, by decide, validate_cursor_44 input8 rfl (by decide)⟩

/-! ## C10: discarding bytes and seeking -/

/-- C10: on a byte sequence of at least 44 bytes read from its start, the loops
that discard 16 bytes after the signature and 6 bytes after the sample rate
leave the stream where `fseek` to 20 and to 34 leaves it, and `validate` on
`stdin` and `validate` on a seekable stream return the same value, print the
same messages and end at the same cursor position. -/
theorem validate_stdin_eq_seek (data : List Byte) (hlen : 44 ≤ data.length) :
    skipLoop 16 0 ⟨data, 4, true⟩ = fseek ⟨data, 4, true⟩ 20 ∧
    skipLoop 6 0 ⟨data, 28, true⟩ = fseek ⟨data, 28, true⟩ 34 ∧
    ∃ (r : Int) (e : List Diag) (p : Nat),
      validate ⟨data, 0, true⟩ = some (r, e, ⟨data, p, true⟩) ∧
      validate ⟨data, 0, false⟩ = some (r, e, ⟨data, p, false⟩) := by
  refine ⟨?_, ?_, ?_⟩
  · rw [skipLoop_eq 16 16 0 _ rfl (by simp only; omega)]
    rfl
  · rw [skipLoop_eq 6 6 0 _ rfl (by simp only; omega)]
    rfl
  · rw [validate_eq ⟨data, 0, true⟩ rfl hlen, validate_eq ⟨data, 0, false⟩ rfl hlen]
    unfold validateResult
    simp only
    split
    · exact ⟨_, _, _, rfl, rfl⟩
    · split
      · exact ⟨_, _, _, rfl, rfl⟩
      · split
        · exact ⟨_, _, _, rfl, rfl⟩
        · split
          · exact ⟨_, _, _, rfl, rfl⟩
          · exact ⟨_, _, _, rfl, rfl⟩

/-- C10 (witness): the bytes of the canonical input. -/
theorem validate_stdin_eq_seek_witness :
    44 ≤ input8.data.length ∧
    skipLoop 16 0 ⟨input8.data, 4, true⟩ = fseek ⟨input8.data, 4, true⟩ 20 ∧
    skipLoop 6 0 ⟨input8.data, 28, true⟩ = fseek ⟨input8.data, 28, true⟩ 34 ∧
    ∃ (r : Int) (e : List Diag) (p : Nat),
      validate ⟨input8.data, 0, true⟩ = some (r, e, ⟨input8.data, p, true⟩) ∧
      validate ⟨input8.data, 0, false⟩ = some (r, e, ⟨input8.data, p, false⟩) :=
  ⟨by decide, validate_stdin_eq_seek input8.data (by decide)⟩

/-! ## C11: the bytes the result depends on -/

/-- A field inside a window of the byte sequence is a field of the window. -/
theorem fieldAt_window (l : List Byte) (a m k n : Nat) (h : k + n ≤ m) :
    fieldAt l (a + k) n = leNat ((((l.drop a).take m).drop k).take n) := by
  unfold fieldAt
  rw [List.drop_take, List.take_take, List.drop_drop, Nat.min_eq_left (by omega)]

/-- Two byte sequences that agree on a window agree on every field inside it. -/
theorem signedAt_congr (d1 d2 : List Byte) (a m k n : Nat) (h : k + n ≤ m)
    (hw : (d1.drop a).take m = (d2.drop a).take m) :
    signedAt d1 (a + k) n = signedAt d2 (a + k) n := by
  unfold signedAt
  rw [fieldAt_window d1 a m k n h, fieldAt_window d2 a m k n h, hw]

/-- C11: two streams of at least 44 bytes, read from their start, that agree on
the bytes at offsets 0-3, 20-27 and 34-43 get the same returned value, the same
messages (so the same failure kind) and the same final cursor from `validate`,
whatever their other bytes and whichever of them is `stdin`. -/
theorem validate_depends_on_fields (d1 d2 : List Byte) (b1 b2 : Bool)
    (h1 : 44 ≤ d1.length) (h2 : 44 ≤ d2.length)
    (ha : d1.take 4 = d2.take 4)
    (hb : (d1.drop 20).take 8 = (d2.drop 20).take 8)
    (hc : (d1.drop 34).take 10 = (d2.drop 34).take 10) :
    ∃ (r : Int) (e : List Diag) (p : Nat),
      validate ⟨d1, 0, b1⟩ = some (r, e, ⟨d1, p, b1⟩) ∧
      validate ⟨d2, 0, b2⟩ = some (r, e, ⟨d2, p, b2⟩) := by
  have ha' : (d1.drop 0).take 4 = (d2.drop 0).take 4 := by
    rw [List.drop_zero, List.drop_zero]
    exact ha
  have s0 : signedAt d1 0 4 = signedAt d2 0 4 := signedAt_congr d1 d2 0 4 0 4 (by omega) ha'
  have s20 : signedAt d1 20 2 = signedAt d2 20 2 := signedAt_congr d1 d2 20 8 0 2 (by omega) hb
  have s22 : signedAt d1 22 2 = signedAt d2 22 2 := signedAt_congr d1 d2 20 8 2 2 (by omega) hb
  have s24 : signedAt d1 24 4 = signedAt d2 24 4 := signedAt_congr d1 d2 20 8 4 4 (by omega) hb
  have s34 : signedAt d1 34 2 = signedAt d2 34 2 := signedAt_congr d1 d2 34 10 0 2 (by omega) hc
  have s36 : signedAt d1 36 4 = signedAt d2 36 4 := signedAt_congr d1 d2 34 10 2 4 (by omega) hc
  have s40 : signedAt d1 40 4 = signedAt d2 40 4 := signedAt_congr d1 d2 34 10 6 4 (by omega) hc
  rw [validate_eq ⟨d1, 0, b1⟩ rfl h1, validate_eq ⟨d2, 0, b2⟩ rfl h2]
  unfold validateResult
  simp only [s0, s20, s22, s24, s34, s36, s40]
  split
  · exact ⟨_, _, _, rfl, rfl⟩
  · split
    · exact ⟨_, _, _, rfl, rfl⟩
    · split
      · exact ⟨_, _, _, rfl, rfl⟩
      · split
        · exact ⟨_, _, _, rfl, rfl⟩
        · exact ⟨_, _, _, rfl, rfl⟩

/-- C11 (witness): the canonical input as a file, and on `stdin` a stream with
other bytes at offsets 4-19, 28-33 and from 44 on. -/
theorem validate_depends_on_fields_witness :
    input8.data ≠ input8Scrambled.data ∧
    ∃ (r : Int) (e : List Diag) (p : Nat),
      validate ⟨input8.data, 0, false⟩ = some (r, e, ⟨input8.data, p, false⟩) ∧
      validate ⟨input8Scrambled.data, 0, true⟩ =
        some (r, e, ⟨input8Scrambled.data, p, true⟩) :=
  ⟨by decide, validate_depends_on_fields input8.data input8Scrambled.data false true
    (by decide) (by decide) (by decide) (by decide) (by decide)⟩

/-! ## The runs of `main` on streams of at least 44 bytes -/

theorem validHeader_iff_signed (data : List Byte) (hlen : 44 ≤ data.length) :
    ValidHeader data ↔
      signedAt data 0 4 = 0x46464952 ∧ signedAt data 20 2 = 1 ∧ signedAt data 22 2 = 2 ∧
        signedAt data 24 4 = 44100 ∧ signedAt data 34 2 = 16 ∧
        signedAt data 36 4 = 0x61746164 := by
  unfold ValidHeader
  have e1 := signedAt_riff_iff data hlen
  have e2 := signedAt_2_eq_iff data 20 1 (by decide)
  have e3 := signedAt_2_eq_iff data 22 2 (by decide)
  have e4 := signedAt_4_eq_iff data 24 44100 (by decide)
  have e5 := signedAt_2_eq_iff data 34 16 (by decide)
  have e6 := signedAt_data_iff data hlen
  simp only [Nat.cast_one, Nat.cast_ofNat] at e2 e3 e4 e5
  simp only [e1, e2, e3, e4, e5, e6]

theorem firstFailure_eq_none_iff (data : List Byte) :
    firstFailure data = none ↔ ValidHeader data := by
  unfold firstFailure ValidHeader
  by_cases h1 : data.take 4 = riffTag <;> by_cases h2 : fieldAt data 20 2 = 1 <;>
    by_cases h3 : fieldAt data 22 2 = 2 <;> by_cases h4 : fieldAt data 24 4 = 44100 <;>
    by_cases h5 : fieldAt data 34 2 = 16 <;>
    by_cases h6 : (data.drop 36).take 4 = dataTag <;> simp [h1, h2, h3, h4, h5, h6]

/-- With a header that is not valid, `validate` returns -1 and prints a message. -/
theorem validateResult_of_invalid (ifp : FILE) (hlen : 44 ≤ ifp.data.length)
    (hnv : ¬ ValidHeader ifp.data) :
    (validateResult ifp).1 = -1 ∧ (validateResult ifp).2.1 ≠ [] := by
  rw [validHeader_iff_signed ifp.data hlen] at hnv
  unfold validateResult
  split
  · exact ⟨rfl, by simp⟩
  · split
    · exact ⟨rfl, by simp⟩
    · split
      · exact ⟨rfl, by simp⟩
      · split
        · exact ⟨rfl, by simp⟩
        · rename_i c1 c2 c3 c4
          simp only [ne_eq, not_not, not_or] at c1 c2 c3 c4
          exact absurd ⟨c1, c2, c3.1, c3.2.1, c3.2.2, c4⟩ hnv

/-- On a stream of at least 44 bytes read from its start, `validate` returns a
value other than -1 exactly for the inputs `main` accepts. -/
theorem validate_ret_iff (ifp : FILE) (hpos : ifp.pos = 0) (hlen : 44 ≤ ifp.data.length) :
    ∃ (r : Int) (e : List Diag) (ifp' : FILE), validate ifp = some (r, e, ifp') ∧
      (r ≠ -1 ↔ ValidInput ifp) := by
  by_cases hv : ValidHeader ifp.data
  · refine ⟨_, _, _, validate_of_valid ifp hpos hlen hv, ?_⟩
    rw [ne_eq, signedAt_4_eq_neg_one_iff]
    exact ⟨fun h => ⟨hpos, hlen, hv, h⟩, fun h => h.2.2.2⟩
  · have hres := validateResult_of_invalid ifp hlen hv
    have hval := validate_eq ifp hpos hlen
    generalize validateResult ifp = res at hres hval
    obtain ⟨r, e, ifp'⟩ := res
    refine ⟨r, e, ifp', hval, ?_⟩
    simp only at hres
    exact ⟨fun h => absurd hres.1 h, fun h => absurd h.2.2.1 hv⟩

/-- A run on inputs that are all valid. -/
theorem main_valid (T : Target) (L : Int) (introfile : Option FILE) (infile : FILE)
    (hi : ∀ i, introfile = some i → ValidInput i) (h : ValidInput infile) :
    main T L introfile infile =
      some { status := 0,
             out := msu1Tag ++ leBytes T.sizeofLong (effectiveLoopPoint L introfile) ++
               payload introfile infile,
             err := [], closed := [Handle.outfile, Handle.infile],
             introfile := introfile.map (fun i => { i with pos := i.data.length }),
             infile := { infile with pos := infile.data.length } } := by
  cases introfile with
  | none =>
    rw [main_valid_none T L infile h]
    simp only [effectiveLoopPoint, payload, List.nil_append, Option.map_none']
  | some intro =>
    rw [main_valid_some T L intro infile (hi intro rfl) h]
    simp only [effectiveLoopPoint, payload, toSigned_32_long, toSigned_32_idem,
      List.append_assoc, Option.map_some']

theorem validate_fails_iff (ifp : FILE) (hpos : ifp.pos = 0) (hlen : 44 ≤ ifp.data.length) :
    (∃ e ifp', validate ifp = some (-1, e, ifp')) ↔ ¬ ValidInput ifp := by
  obtain ⟨r, e, ifp', hv, hiff⟩ := validate_ret_iff ifp hpos hlen
  constructor
  · rintro ⟨e2, f2, hv2⟩ hvalid
    rw [hv] at hv2
    simp only [Option.some.injEq, Prod.mk.injEq] at hv2
    exact hiff.2 hvalid hv2.1
  · intro hnv
    have hr : r = -1 := by
      by_contra hne
      exact hnv (hiff.1 hne)
    subst hr
    exact ⟨e, ifp', hv⟩

theorem validate_succeeds_iff (ifp : FILE) (hpos : ifp.pos = 0)
    (hlen : 44 ≤ ifp.data.length) :
    (∃ r e ifp', validate ifp = some (r, e, ifp') ∧ r ≠ -1) ↔ ValidInput ifp := by
  obtain ⟨r, e, ifp', hv, hiff⟩ := validate_ret_iff ifp hpos hlen
  constructor
  · rintro ⟨r2, e2, f2, hv2, hne⟩
    rw [hv] at hv2
    simp only [Option.some.injEq, Prod.mk.injEq] at hv2
    exact hiff.1 (hv2.1 ▸ hne)
  · intro hvalid
    exact ⟨r, e, ifp', hv, hiff.2 hvalid⟩

/-- A run whose intro does not validate (lines 189-197). -/
theorem main_intro_invalid (T : Target) (L : Int) (intro infile : FILE)
    (hpos : intro.pos = 0) (hlen : 44 ≤ intro.data.length) (hnv : ¬ ValidInput intro) :
    ∃ e intro', validate intro = some (-1, e, intro') ∧
      main T L (some intro) infile =
        some { status := 1, out := [], err := e ++ [Diag.introDidNotValidate],
               closed := [Handle.introfile, Handle.outfile, Handle.infile],
               introfile := some intro', infile := infile } := by
  obtain ⟨e, intro', hv⟩ := (validate_fails_iff intro hpos hlen).2 hnv
  refine ⟨e, intro', hv, ?_⟩
  unfold main
  simp only [hv, if_true]

/-- A run whose intro is absent or valid and whose main input does not validate
(lines 200-206). -/
theorem main_input_invalid (T : Target) (L : Int) (introfile : Option FILE) (infile : FILE)
    (hi : ∀ i, introfile = some i → ValidInput i)
    (hpos : infile.pos = 0) (hlen : 44 ≤ infile.data.length) (hnv : ¬ ValidInput infile) :
    ∃ run, main T L introfile infile = some run ∧ run.status = 1 ∧ run.out = [] ∧
      run.closed = [Handle.outfile, Handle.infile] ∧
      run.introfile = introfile.map (fun i => { i with pos := 44 }) := by
  obtain ⟨e, infile', hv⟩ := (validate_fails_iff infile hpos hlen).2 hnv
  cases introfile with
  | none =>
    refine ⟨_, by unfold main mainFromLine200; simp only [hv, if_true]; rfl, rfl, rfl, rfl, rfl⟩
  | some intro =>
    obtain ⟨ipos, ilen, ihv, isz⟩ := hi intro rfl
    have hne : signedAt intro.data 40 4 ≠ -1 := fun e =>
      isz ((signedAt_4_eq_neg_one_iff _ _).1 e)
    refine ⟨_, by
      unfold main mainFromLine200
      simp only [validate_of_valid intro ipos ilen ihv, if_neg hne, hv, if_true]
      rfl, rfl, rfl, rfl, rfl⟩

/-! ## The runs of `main` in terms of what `validate` returns -/

theorem mainFromLine200_undefined (T : Target) (lp : Int) (introfile : Option FILE)
    (err : List Diag) (infile : FILE) (hv : validate infile = none) :
    mainFromLine200 T lp introfile err infile = none := by
  unfold mainFromLine200
  simp only [hv]

theorem mainFromLine200_fails (T : Target) (lp : Int) (introfile : Option FILE)
    (err : List Diag) (infile : FILE) (e : List Diag) (ifp' : FILE)
    (hv : validate infile = some (-1, e, ifp')) :
    mainFromLine200 T lp introfile err infile =
      some { status := 1, out := [], err := err ++ e ++ [Diag.inputDidNotValidate],
             closed := [Handle.outfile, Handle.infile],
             introfile := introfile, infile := ifp' } := by
  unfold mainFromLine200
  simp only [hv, if_true]

theorem mainFromLine200_passes_none (T : Target) (lp : Int) (err : List Diag)
    (infile : FILE) (r : Int) (e : List Diag) (ifp' : FILE)
    (hv : validate infile = some (r, e, ifp')) (hr : r ≠ -1) :
    mainFromLine200 T lp none err infile =
      some { status := 0,
             out := msu1Tag ++ leBytes T.sizeofLong (toSigned 32 lp) ++
               ifp'.data.drop ifp'.pos,
             err := err ++ e, closed := [Handle.outfile, Handle.infile],
             introfile := none,
             infile := { ifp' with pos := max ifp'.pos ifp'.data.length } } := by
  unfold mainFromLine200
  simp only [hv, if_neg hr]
  rw [copyLoop_eq _ _ _ rfl]

theorem mainFromLine200_passes_some (T : Target) (lp : Int) (err : List Diag)
    (intro infile : FILE) (r : Int) (e : List Diag) (ifp' : FILE)
    (hv : validate infile = some (r, e, ifp')) (hr : r ≠ -1) :
    mainFromLine200 T lp (some intro) err infile =
      some { status := 0,
             out := msu1Tag ++ leBytes T.sizeofLong (toSigned 32 lp) ++
               intro.data.drop intro.pos ++ ifp'.data.drop ifp'.pos,
             err := err ++ e, closed := [Handle.outfile, Handle.infile],
             introfile := some { intro with pos := max intro.pos intro.data.length },
             infile := { ifp' with pos := max ifp'.pos ifp'.data.length } } := by
  unfold mainFromLine200
  simp only [hv, if_neg hr]
  rw [copyLoop_eq _ intro _ rfl, copyLoop_eq _ ifp' _ rfl]

theorem main_none_eq (T : Target) (L : Int) (infile : FILE) :
    main T L none infile = mainFromLine200 T L none [] infile := by
  unfold main
  rfl

theorem main_some_undefined (T : Target) (L : Int) (intro infile : FILE)
    (hv : validate intro = none) : main T L (some intro) infile = none := by
  unfold main
  simp only [hv]

theorem main_some_fails (T : Target) (L : Int) (intro infile : FILE) (e : List Diag)
    (intro' : FILE) (hv : validate intro = some (-1, e, intro')) :
    main T L (some intro) infile =
      some { status := 1, out := [], err := e ++ [Diag.introDidNotValidate],
             closed := [Handle.introfile, Handle.outfile, Handle.infile],
             introfile := some intro', infile := infile } := by
  unfold main
  simp only [hv, if_true]

theorem main_some_passes (T : Target) (L : Int) (intro infile : FILE) (r : Int)
    (e : List Diag) (intro' : FILE) (hv : validate intro = some (r, e, intro'))
    (hr : r ≠ -1) :
    main T L (some intro) infile =
      mainFromLine200 T (toSigned (8 * T.sizeofLong) (L + Int.tdiv r 4)) (some intro') e
        infile := by
  unfold main
  simp only [hv, if_neg hr]

theorem not_passes_of_fails (ifp : FILE) (hf : ValidationFails ifp) :
    ¬ ValidationPasses ifp := by
  rintro ⟨r, e, f, hv, hr⟩
  obtain ⟨e2, f2, hv2⟩ := hf
  rw [hv] at hv2
  simp only [Option.some.injEq, Prod.mk.injEq] at hv2
  exact hr hv2.1

theorem not_introPasses_of_introFails (introfile : Option FILE) (hf : IntroFails introfile) :
    ¬ IntroPasses introfile := by
  obtain ⟨i, hi, hfi⟩ := hf
  exact fun hp => not_passes_of_fails i hfi (hp i hi)

/-- Every run the embedding determines is of one of three kinds. -/
theorem main_some_cases (T : Target) (L : Int) (introfile : Option FILE) (infile : FILE)
    (run : Run) (h : main T L introfile infile = some run) :
    (IntroFails introfile ∧ run.status = 1 ∧ run.out = []) ∨
    (IntroPasses introfile ∧ ValidationFails infile ∧ run.status = 1 ∧ run.out = []) ∨
    (IntroPasses introfile ∧ ValidationPasses infile ∧ run.status = 0) := by
  cases introfile with
  | none =>
    have hp : IntroPasses none := fun i hi => by cases hi
    rw [main_none_eq] at h
    cases hv : validate infile with
    | none =>
      rw [mainFromLine200_undefined T L none [] infile hv] at h
      cases h
    | some res =>
      obtain ⟨r, e, ifp'⟩ := res
      by_cases hr : r = -1
      · subst hr
        rw [mainFromLine200_fails T L none [] infile e ifp' hv] at h
        cases h
        exact Or.inr (Or.inl ⟨hp, ⟨e, ifp', hv⟩, rfl, rfl⟩)
      · rw [mainFromLine200_passes_none T L [] infile r e ifp' hv hr] at h
        cases h
        exact Or.inr (Or.inr ⟨hp, ⟨r, e, ifp', hv, hr⟩, rfl⟩)
  | some intro =>
    cases hvi : validate intro with
    | none =>
      rw [main_some_undefined T L intro infile hvi] at h
      cases h
    | some resi =>
      obtain ⟨ri, ei, intro'⟩ := resi
      by_cases hri : ri = -1
      · subst hri
        rw [main_some_fails T L intro infile ei intro' hvi] at h
        cases h
        exact Or.inl ⟨⟨intro, rfl, ei, intro', hvi⟩, rfl, rfl⟩
      · have hp : IntroPasses (some intro) := fun i hi => by
          cases hi
          exact ⟨ri, ei, intro', hvi, hri⟩
        rw [main_some_passes T L intro infile ri ei intro' hvi hri] at h
        cases hv : validate infile with
        | none =>
          rw [mainFromLine200_undefined T _ _ _ infile hv] at h
          cases h
        | some res =>
          obtain ⟨r, e, ifp'⟩ := res
          by_cases hr : r = -1
          · subst hr
            rw [mainFromLine200_fails T _ _ _ infile e ifp' hv] at h
            cases h
            exact Or.inr (Or.inl ⟨hp, ⟨e, ifp', hv⟩, rfl, rfl⟩)
          · rw [mainFromLine200_passes_some T _ _ intro' infile r e ifp' hv hr] at h
            cases h
            exact Or.inr (Or.inr ⟨hp, ⟨r, e, ifp', hv, hr⟩, rfl⟩)

/-- On streams of at least 44 bytes read from their start every read is complete
and the embedding determines the run. -/
theorem main_total (T : Target) (L : Int) (introfile : Option FILE) (infile : FILE)
    (hpos : infile.pos = 0) (hlen : 44 ≤ infile.data.length)
    (hintro : ∀ i, introfile = some i → i.pos = 0 ∧ 44 ≤ i.data.length) :
    ∃ run, main T L introfile infile = some run := by
  by_cases hI : ∀ i, introfile = some i → ValidInput i
  · by_cases hM : ValidInput infile
    · exact ⟨_, main_valid T L introfile infile hI hM⟩
    · obtain ⟨run, hrun, _⟩ := main_input_invalid T L introfile infile hI hpos hlen hM
      exact ⟨run, hrun⟩
  · have hex : ∃ i, introfile = some i ∧ ¬ ValidInput i := by
      by_contra hno
      exact hI (fun i hi => by
        by_contra hnv
        exact hno ⟨i, hi, hnv⟩)
    obtain ⟨i, hi, hnv⟩ := hex
    subst hi
    obtain ⟨e, i', _, hrun⟩ :=
      main_intro_invalid T L i infile (hintro i rfl).1 (hintro i rfl).2 hnv
    exact ⟨_, hrun⟩

/-! ## C12: the exit status -/

/-- C12: for every run that reaches validation, with `validate` returning -1
counted as failure: when the intro given fails, the run ends with status 1;
when no intro is given or the intro passes and the main input fails, the run
ends with status 1; when every input given passes, the run ends with status 0
and its output is the tag, the loop point and the bytes left in the intro and
in the main input. Conversely every run ends with status 0 or 1, with status 1
when the intro or the main input fails and without output then, and with status
0 if and only if no intro is given or the intro passes, and the main input
passes. On streams of at least 44 bytes read from their start the run is always
determined. -/
theorem exit_status (T : Target) (L : Int) (introfile : Option FILE) (infile : FILE) :
    (IntroFails introfile →
      ∃ run, main T L introfile infile = some run ∧ run.status = 1) ∧
    (IntroPasses introfile → ValidationFails infile →
      ∃ run, main T L introfile infile = some run ∧ run.status = 1) ∧
    (∀ r e ifp', introfile = none → validate infile = some (r, e, ifp') → r ≠ -1 →
      ∃ run, main T L introfile infile = some run ∧ run.status = 0 ∧
        run.out = msu1Tag ++ leBytes T.sizeofLong (toSigned 32 L) ++
          ifp'.data.drop ifp'.pos) ∧
    (∀ i ri ei i' r e ifp', introfile = some i → validate i = some (ri, ei, i') → ri ≠ -1 →
      validate infile = some (r, e, ifp') → r ≠ -1 →
      ∃ run, main T L introfile infile = some run ∧ run.status = 0 ∧
        run.out = msu1Tag ++
          leBytes T.sizeofLong
            (toSigned 32 (toSigned (8 * T.sizeofLong) (L + Int.tdiv ri 4))) ++
          i'.data.drop i'.pos ++ ifp'.data.drop ifp'.pos) ∧
    (∀ run, main T L introfile infile = some run →
      (run.status = 0 ∨ run.status = 1) ∧
      (IntroFails introfile ∨ ValidationFails infile → run.status = 1) ∧
      (run.status = 0 ↔ IntroPasses introfile ∧ ValidationPasses infile) ∧
      (run.status = 1 → run.out = [])) ∧
    (infile.pos = 0 → 44 ≤ infile.data.length →
      (∀ i, introfile = some i → i.pos = 0 ∧ 44 ≤ i.data.length) →
      ∃ run, main T L introfile infile = some run) := by
  refine ⟨?_, ?_, ?_, ?_, ?_, main_total T L introfile infile⟩
  · rintro ⟨i, hi, e, i', hv⟩
    subst hi
    exact ⟨_, main_some_fails T L i infile e i' hv, rfl⟩
  · rintro hp ⟨e, ifp', hv⟩
    cases introfile with
    | none =>
      rw [main_none_eq]
      exact ⟨_, mainFromLine200_fails T L none [] infile e ifp' hv, rfl⟩
    | some intro =>
      obtain ⟨ri, ei, intro', hvi, hri⟩ := hp intro rfl
      rw [main_some_passes T L intro infile ri ei intro' hvi hri]
      exact ⟨_, mainFromLine200_fails T _ _ _ infile e ifp' hv, rfl⟩
  · intro r e ifp' hnone hv hr
    subst hnone
    rw [main_none_eq]
    exact ⟨_, mainFromLine200_passes_none T L [] infile r e ifp' hv hr, rfl, rfl⟩
  · intro i ri ei i' r e ifp' hsome hvi hri hv hr
    subst hsome
    rw [main_some_passes T L i infile ri ei i' hvi hri]
    exact ⟨_, mainFromLine200_passes_some T _ _ i' infile r e ifp' hv hr, rfl, rfl⟩
  · intro run hrun
    rcases main_some_cases T L introfile infile run hrun with
      ⟨hf, hst, hout⟩ | ⟨hp, hf, hst, hout⟩ | ⟨hp, hpm, hst⟩
    · refine ⟨Or.inr hst, fun _ => hst, ?_, fun _ => hout⟩
      constructor
      · intro h0
        rw [hst] at h0
        exact absurd h0 (by decide)
      · intro h
        exact absurd h.1 (not_introPasses_of_introFails introfile hf)
    · refine ⟨Or.inr hst, fun _ => hst, ?_, fun _ => hout⟩
      constructor
      · intro h0
        rw [hst] at h0
        exact absurd h0 (by decide)
      · intro h
        exact absurd h.2 (not_passes_of_fails infile hf)
    · refine ⟨Or.inl hst, ?_, ⟨fun _ => ⟨hp, hpm⟩, fun _ => hst⟩, ?_⟩
      · rintro (hf | hf)
        · exact absurd hp (not_introPasses_of_introFails introfile hf)
        · exact absurd hpm (not_passes_of_fails infile hf)
      · intro h1
        rw [hst] at h1
        exact absurd h1 (by decide)

/-- C12 (witness): a 4-byte file that is not a RIFF file, without intro, ends
with status 1; the canonical intro and main input with base loop point 1 end
with status 0 and the assembled output. -/
theorem exit_status_witness :
    validate inputTiny =
      some (-1, [Diag.incorrectHeader 1399285583], { inputTiny with pos := 4 }) ∧
    (∃ run, main Target.long32 0 none inputTiny = some run ∧ run.status = 1) ∧
    (∃ run, main Target.long32 1 (some intro16) input8 = some run ∧ run.status = 0 ∧
      run.out = msu1Tag ++
        leBytes Target.long32.sizeofLong
          (toSigned 32 (toSigned (8 * Target.long32.sizeofLong) (1 + Int.tdiv 16 4))) ++
        intro16.data.drop 44 ++ input8.data.drop 44) :=
  have ht : validate inputTiny =
      some (-1, [Diag.incorrectHeader 1399285583], { inputTiny with pos := 4 }) := by
    decide
  have hi : validate intro16 = some (16, [], { intro16 with pos := 44 }) := by
    rw [validate_eq _ rfl (by decide)]
    decide
  have hm : validate input8 = some (8, [], { input8 with pos := 44 }) := by
    rw [validate_eq _ rfl (by decide)]
    decide
  ⟨ht,
    (exit_status Target.long32 0 none inputTiny).2.1 (fun i hi => by cases hi) ⟨_, _, ht⟩,
    (exit_status Target.long32 1 (some intro16) input8).2.2.2.1 intro16 16 []
      { intro16 with pos := 44 } 8 [] { input8 with pos := 44 } rfl hi (by decide) hm
      (by decide)⟩

/-! ## C13: the streams closed -/

/-- C13 (the code at the failing inputs): with a valid intro, the run on a valid
main input (success) and the run on a main input that is not PCM (main
validation failure) close `outfile` and `infile` only, not `introfile`; the run
whose intro does not validate closes all three. -/
theorem main_leaves_intro_open :
    ValidInput intro16 ∧ ValidInput input8 ∧ ¬ ValidInput inputNotPCM ∧
    (main Target.long32 0 (some intro16) input8).map Run.closed =
      some [Handle.outfile, Handle.infile] ∧
    (main Target.long32 0 (some intro16) inputNotPCM).map Run.closed =
      some [Handle.outfile, Handle.infile] ∧
    (main Target.long32 0 (some inputNotPCM) input8).map Run.closed =
      some [Handle.introfile, Handle.outfile, Handle.infile] := by
  refine ⟨by decide, by decide, by decide, ?_, ?_, ?_⟩
  · rw [main_valid_some Target.long32 0 intro16 input8 (by decide) (by decide)]
    rfl
  · obtain ⟨run, hrun, _, _, hc, _⟩ :=
      main_input_invalid Target.long32 0 (some intro16) inputNotPCM
        (fun i hi => by cases hi; decide) rfl (by decide) (by decide)
    rw [hrun, Option.map_some', hc]
  · obtain ⟨e, i', _, hrun⟩ :=
      main_intro_invalid Target.long32 0 inputNotPCM input8 rfl (by decide) (by decide)
    rw [hrun]
    rfl

/-! ## C14: the value -1 -/

/-- C14: on a stream of at least 44 bytes read from its start, `validate`
returns -1 if and only if one of the four checks fails, or all pass and the
data-length field is 0xFFFFFFFF; otherwise it returns the data-length field
read as a two's-complement signed 32-bit integer (the field itself below 2^31,
the field minus 2^32, a negative value, from 2^31 on) and `main` goes on to
write the tag, the loop point and the sample bytes and ends with status 0. -/
theorem validate_neg_one_iff (ifp : FILE) (hpos : ifp.pos = 0)
    (hlen : 44 ≤ ifp.data.length) :
    ∃ (r : Int) (e : List Diag) (ifp' : FILE), validate ifp = some (r, e, ifp') ∧
      (r = -1 ↔ (firstFailure ifp.data ≠ none ∨
        (firstFailure ifp.data = none ∧ fieldAt ifp.data 40 4 = 4294967295))) ∧
      (r ≠ -1 →
        r = toSigned 32 (fieldAt ifp.data 40 4) ∧
        (fieldAt ifp.data 40 4 < 2147483648 → r = (fieldAt ifp.data 40 4 : Int)) ∧
        (2147483648 ≤ fieldAt ifp.data 40 4 →
          r = (fieldAt ifp.data 40 4 : Int) - 4294967296 ∧ r < 0) ∧
        ∀ (T : Target) (L : Int), ∃ run, main T L none ifp = some run ∧ run.status = 0 ∧
          run.out = msu1Tag ++ leBytes T.sizeofLong (toSigned 32 L) ++ ifp.data.drop 44) := by
  have hlt := fieldAt_lt_4 ifp.data 40
  by_cases hv : ValidHeader ifp.data
  · have hff : firstFailure ifp.data = none := (firstFailure_eq_none_iff _).2 hv
    refine ⟨_, _, _, validate_of_valid ifp hpos hlen hv, ?_, ?_⟩
    · rw [signedAt_4_eq_neg_one_iff, hff]
      simp
    · intro hne
      have hsz : fieldAt ifp.data 40 4 ≠ 4294967295 := fun e =>
        hne ((signedAt_4_eq_neg_one_iff _ _).2 e)
      refine ⟨rfl, ?_, ?_, ?_⟩
      · intro h
        rw [signedAt_4, if_pos h]
      · intro h
        rw [signedAt_4, if_neg (by omega)]
        exact ⟨rfl, by omega⟩
      · intro T L
        exact ⟨_, main_valid_none T L ifp ⟨hpos, hlen, hv, hsz⟩, rfl, rfl⟩
  · have hff : firstFailure ifp.data ≠ none := fun e => hv ((firstFailure_eq_none_iff _).1 e)
    have hres := validateResult_of_invalid ifp hlen hv
    have hval := validate_eq ifp hpos hlen
    generalize validateResult ifp = res at hres hval
    obtain ⟨r, e, ifp'⟩ := res
    simp only at hres
    refine ⟨r, e, ifp', hval, ?_, fun hne => absurd hres.1 hne⟩
    exact ⟨fun _ => Or.inl hff, fun _ => hres.1⟩

/-- C14 (witness): a valid header whose data-length field is 0x80000000. -/
theorem validate_neg_one_iff_witness :
    ∃ (r : Int) (e : List Diag) (ifp' : FILE), validate introHuge = some (r, e, ifp') ∧
      (r = -1 ↔ (firstFailure introHuge.data ≠ none ∨
        (firstFailure introHuge.data = none ∧ fieldAt introHuge.data 40 4 = 4294967295))) ∧
      (r ≠ -1 →
        r = toSigned 32 (fieldAt introHuge.data 40 4) ∧
        (fieldAt introHuge.data 40 4 < 2147483648 → r = (fieldAt introHuge.data 40 4 : Int)) ∧
        (2147483648 ≤ fieldAt introHuge.data 40 4 →
          r = (fieldAt introHuge.data 40 4 : Int) - 4294967296 ∧ r < 0) ∧
        ∀ (T : Target) (L : Int), ∃ run, main T L none introHuge = some run ∧
          run.status = 0 ∧
          run.out = msu1Tag ++ leBytes T.sizeofLong (toSigned 32 L) ++
            introHuge.data.drop 44) :=
  validate_neg_one_iff introHuge rfl (by decide)

/-! ## C15: the signed quotient in the loop point -/

theorem tdiv_4_of_nonneg (a : Int) (h : 0 ≤ a) : Int.tdiv a 4 = a / 4 :=
  Int.tdiv_eq_ediv h (by decide)

theorem tdiv_4_of_neg (a : Int) (h : a < 0) : Int.tdiv a 4 = -((-a) / 4) := by
  have h1 : Int.tdiv (-(-a)) 4 = -(Int.tdiv (-a) 4) := Int.neg_tdiv (-a) 4
  rw [neg_neg] at h1
  rw [h1, tdiv_4_of_nonneg (-a) (by omega)]

/-- C15: for every base loop point `L`, every valid main input and every intro
accepted by `validate` with returned value `S'`, the loop point written is the
32-bit two's-complement wrap of `L + (S' quot 4)`, the quotient truncated toward
zero (`S' / 4` rounded down for `S'` not negative, minus `(-S') / 4` rounded
down for `S'` negative); the intro adds nothing for `0 <= S' <= 3`, and nothing
or a negative number when the data-length field is 2^31 or more. -/
theorem loop_point_signed_quotient (T : Target) (L : Int) (intro infile : FILE)
    (hi : ValidInput intro) (h : ValidInput infile) :
    ∃ (S' : Int) (run : Run), validate intro = some (S', [], { intro with pos := 44 }) ∧
      S' ≠ -1 ∧ main T L (some intro) infile = some run ∧
      signedAt run.out 4 4 = toSigned 32 (L + Int.tdiv S' 4) ∧
      (0 ≤ S' → Int.tdiv S' 4 = S' / 4) ∧
      (S' < 0 → Int.tdiv S' 4 = -((-S') / 4)) ∧
      (0 ≤ S' → S' ≤ 3 → Int.tdiv S' 4 = 0 ∧ signedAt run.out 4 4 = toSigned 32 L) ∧
      (2147483648 ≤ fieldAt intro.data 40 4 → S' < 0 ∧ Int.tdiv S' 4 ≤ 0) := by
  have hlt := fieldAt_lt_4 intro.data 40
  have hne : signedAt intro.data 40 4 ≠ -1 := fun e =>
    hi.2.2.2 ((signedAt_4_eq_neg_one_iff _ _).1 e)
  have hw : signedAt (msu1Tag ++ leBytes T.sizeofLong (toSigned 32 (toSigned (8 * T.sizeofLong)
      (L + Int.tdiv (signedAt intro.data 40 4) 4))) ++ intro.data.drop 44 ++
      infile.data.drop 44) 4 4 = toSigned 32 (L + Int.tdiv (signedAt intro.data 40 4) 4) := by
    rw [List.append_assoc, signedAt_loop_field, toSigned_32_long, toSigned_32_idem]
  refine ⟨signedAt intro.data 40 4, _, validate_of_valid intro hi.1 hi.2.1 hi.2.2.1, hne,
    main_valid_some T L intro infile hi h, hw, tdiv_4_of_nonneg _, tdiv_4_of_neg _, ?_, ?_⟩
  · intro h0 h3
    have hz : Int.tdiv (signedAt intro.data 40 4) 4 = 0 := by
      rw [tdiv_4_of_nonneg _ h0]
      omega
    refine ⟨hz, ?_⟩
    simp only
    rw [hw, hz, Int.add_zero]
  · intro hbig
    have hs : signedAt intro.data 40 4 = (fieldAt intro.data 40 4 : Int) - 4294967296 := by
      rw [signedAt_4, if_neg (by omega)]
    have hneg : signedAt intro.data 40 4 < 0 := by omega
    refine ⟨hneg, ?_⟩
    rw [tdiv_4_of_neg _ hneg]
    omega

/-- C15 (witness): an intro whose data-length field is 0x80000000, before the
canonical main input, with base loop point 0. -/
theorem loop_point_signed_quotient_witness :
    ∃ (S' : Int) (run : Run),
      validate introHuge = some (S', [], { introHuge with pos := 44 }) ∧
      S' ≠ -1 ∧ main Target.long64 0 (some introHuge) input8 = some run ∧
      signedAt run.out 4 4 = toSigned 32 (0 + Int.tdiv S' 4) ∧
      (0 ≤ S' → Int.tdiv S' 4 = S' / 4) ∧
      (S' < 0 → Int.tdiv S' 4 = -((-S') / 4)) ∧
      (0 ≤ S' → S' ≤ 3 → Int.tdiv S' 4 = 0 ∧ signedAt run.out 4 4 = toSigned 32 0) ∧
      (2147483648 ≤ fieldAt introHuge.data 40 4 → S' < 0 ∧ Int.tdiv S' 4 ≤ 0) :=
  loop_point_signed_quotient Target.long64 0 introHuge input8 (by decide) (by decide)

/-! ## C16: the width of the loop-point field -/

theorem toSigned_32_range (x : Int) :
    -2147483648 ≤ toSigned 32 x ∧ toSigned 32 x < 2147483648 := by
  rw [toSigned_32]
  split <;> omega

theorem effectiveLoopPoint_range (L : Int) (introfile : Option FILE) :
    -2147483648 ≤ effectiveLoopPoint L introfile ∧
      effectiveLoopPoint L introfile < 2147483648 := by
  cases introfile <;> exact toSigned_32_range _

/-- The 8 bytes of a `long` that holds a signed 32-bit value: its 4 bytes, then
4 bytes of sign extension. -/
theorem leBytes_8_of_int32 (W : Int) (h1 : -2147483648 ≤ W) (h2 : W < 2147483648) :
    leBytes 8 W = leBytes 4 W ++ (if 0 ≤ W then [0, 0, 0, 0] else [255, 255, 255, 255]) := by
  have hsplit : leBytes 8 W = leBytes 4 W ++ leBytes 4 (W / 256 / 256 / 256 / 256) := by
    simp only [leBytes, List.cons_append, List.nil_append]
  rw [hsplit]
  split
  · have hq : W / 256 / 256 / 256 / 256 = 0 := by omega
    rw [hq]
    rfl
  · have hq : W / 256 / 256 / 256 / 256 = -1 := by omega
    rw [hq]
    rfl

/-- C16: on every run with valid inputs the loop point, a signed 32-bit value, is
written after the tag in `sizeof (long)` bytes. Where `long` has 8 bytes the
output is the tag, the 4 little-endian bytes of the loop point, 4 bytes of sign
extension (0x00 for a loop point that is not negative, 0xFF for a negative one)
and then the sample bytes, so the header has 12 bytes; where `long` has 4 bytes
the output is the tag, the 4 bytes of the loop point and the sample bytes, and
the header has 8 bytes. -/
theorem loop_field_width (T : Target) (L : Int) (introfile : Option FILE) (infile : FILE)
    (hi : ∀ i, introfile = some i → ValidInput i) (h : ValidInput infile) :
    ∃ (run : Run) (W : Int), main T L introfile infile = some run ∧
      W = effectiveLoopPoint L introfile ∧ -2147483648 ≤ W ∧ W < 2147483648 ∧
      signedAt run.out 4 4 = W ∧
      run.out = msu1Tag ++ leBytes T.sizeofLong W ++ payload introfile infile ∧
      (leBytes T.sizeofLong W).length = T.sizeofLong ∧
      (T = Target.long64 →
        run.out = msu1Tag ++ leBytes 4 W ++
            (if 0 ≤ W then [0, 0, 0, 0] else [255, 255, 255, 255]) ++
            payload introfile infile ∧
          run.out.drop 12 = payload introfile infile ∧
          run.out.length = 12 + (payload introfile infile).length) ∧
      (T = Target.long32 →
        run.out = msu1Tag ++ leBytes 4 W ++ payload introfile infile ∧
          run.out.drop 8 = payload introfile infile ∧
          run.out.length = 8 + (payload introfile infile).length) := by
  have hr := effectiveLoopPoint_range L introfile
  refine ⟨_, effectiveLoopPoint L introfile, main_valid T L introfile infile hi h, rfl,
    hr.1, hr.2, ?_, rfl, length_leBytes _ _, ?_, ?_⟩
  · simp only
    rw [signedAt_loop_field, toSigned_32_of_range _ hr.1 hr.2]
  · intro hT
    subst hT
    have h8 := leBytes_8_of_int32 _ hr.1 hr.2
    have hlen : (msu1Tag ++ leBytes 8 (effectiveLoopPoint L introfile)).length = 12 := by
      rw [List.length_append, length_msu1Tag, length_leBytes]
    refine ⟨?_, ?_, ?_⟩
    · simp only [Target.sizeofLong]
      rw [h8]
      simp only [List.append_assoc]
    · simp only [Target.sizeofLong]
      rw [← hlen, List.drop_left]
    · simp only [Target.sizeofLong]
      rw [List.length_append, hlen]
  · intro hT
    subst hT
    have hlen : (msu1Tag ++ leBytes 4 (effectiveLoopPoint L introfile)).length = 8 := by
      rw [List.length_append, length_msu1Tag, length_leBytes]
    refine ⟨rfl, ?_, ?_⟩
    · simp only [Target.sizeofLong]
      rw [← hlen, List.drop_left]
    · simp only [Target.sizeofLong]
      rw [List.length_append, hlen]

/-- C16 (witness): `long` of 8 bytes, base loop point -1, no intro, the canonical
main input. -/
theorem loop_field_width_witness :
    effectiveLoopPoint (-1) none = -1 ∧
    ∃ (run : Run) (W : Int), main Target.long64 (-1) none input8 = some run ∧
      W = effectiveLoopPoint (-1) none ∧ -2147483648 ≤ W ∧ W < 2147483648 ∧
      signedAt run.out 4 4 = W ∧
      run.out = msu1Tag ++ leBytes Target.long64.sizeofLong W ++ payload none input8 ∧
      (leBytes Target.long64.sizeofLong W).length = Target.long64.sizeofLong ∧
      (Target.long64 = Target.long64 →
        run.out = msu1Tag ++ leBytes 4 W ++
            (if 0 ≤ W then [0, 0, 0, 0] else [255, 255, 255, 255]) ++
            payload none input8 ∧
          run.out.drop 12 = payload none input8 ∧
          run.out.length = 12 + (payload none input8).length) ∧
      (Target.long64 = Target.long32 →
        run.out = msu1Tag ++ leBytes 4 W ++ payload none input8 ∧
          run.out.drop 8 = payload none input8 ∧
          run.out.length = 8 + (payload none input8).length) :=
  ⟨by decide, loop_field_width Target.long64 (-1) none input8
    (fun i hi => by cases hi) (by decide)⟩

end Wav2msu
